import Mathlib

/-!
The annotation parser and the code generator of keeper-generator (`main.go`).

A shallow embedding of `parseIndex` and `generateCode` together with the
library functions they call (`strings.Split`, `strconv.Atoi`, `fmt.Sprintf`
on string arguments, `bytes.Buffer.WriteString`).

A Go `string` is a sequence of bytes: `len` counts bytes and `s[i:j]` slices
bytes.  Strings are therefore lists of byte values, and a "character" of a
payload is one byte of it.
-/

set_option autoImplicit false

namespace KeeperGenerator

/-- A Go string: its bytes, in order. -/
abbrev Bytes := List Nat

/-- The bytes of an ASCII literal (every character of the literals used here
is below 128, so its code point is its single byte). -/
def ascii (s : String) : Bytes := s.toList.map Char.toNat

/-- Source constant `indexFieldNumber`. -/
def indexFieldNumber : Int := 53535

/-- Bit size of the Go type `int` (`strconv.IntSize`) on 64-bit targets. -/
def intSize : Nat := 64

/-! ## Library functions -/

/-- Go `strings.Split(s, sep)` for a separator of one byte: the pieces of `s`
between the occurrences of `sep`; the empty string gives one empty piece. -/
def stringsSplit : Bytes → Nat → List Bytes
  | [], _ => [[]]
  | c :: cs, sep =>
    if c = sep then [] :: stringsSplit cs sep
    else
      match stringsSplit cs sep with
      | [] => [[c]]
      | piece :: pieces => (c :: piece) :: pieces

/-- Go slice expression `s[lo:hi]` for `lo ≤ hi ≤ len(s)`. -/
def slice (s : Bytes) (lo hi : Nat) : Bytes := (s.take hi).drop lo

/-- The two causes of a `*strconv.NumError`: `strconv.ErrSyntax` and
`strconv.ErrRange`. -/
inductive NumErrorCause where
  | syntaxErr
  | rangeErr
  deriving DecidableEq, Repr

/-- An `error` value returned by `parseIndex`. -/
inductive GoError where
  /-- The error `fmt.Errorf("incorrect option: %v", option)`. -/
  | incorrectOption (option : Bytes)
  /-- The `*strconv.NumError` that `strconv.Atoi` returns on `num`. -/
  | numError (num : Bytes) (cause : NumErrorCause)
  /-- The error `fmt.Errorf("incorrect index: %v", indexValue)`. -/
  | incorrectIndex (indexValue : Bytes)
  deriving DecidableEq, Repr

/-- A byte `'0'..'9'`. -/
def isDigit (c : Nat) : Bool := decide (48 ≤ c) && decide (c ≤ 57)

/-- The number written by a string of decimal digits (`n = n*10 + (ch - '0')`
from left to right). -/
def digitsValue (s : Bytes) : Nat := s.foldl (fun n ch => n * 10 + (ch - 48)) 0

/-- Go `strconv.Atoi(s)`: an optional sign `+` or `-`, then at least one
decimal digit and nothing else (otherwise a syntax error); the value must fit
the type `int` (otherwise a range error). -/
def Atoi (s : Bytes) : Except GoError Int :=
  match s with
  | [] => .error (.numError s .syntaxErr)
  | c :: rest =>
    let neg : Bool := c = 45
    let digits : Bytes := if c = 45 ∨ c = 43 then rest else s
    if digits = [] ∨ digits.all isDigit = false then
      .error (.numError s .syntaxErr)
    else
      let un : Nat := digitsValue digits
      let cutoff : Nat := 2 ^ (intSize - 1)
      if neg = false ∧ cutoff ≤ un then .error (.numError s .rangeErr)
      else if neg = true ∧ cutoff < un then .error (.numError s .rangeErr)
      else .ok (if neg then -(un : Int) else (un : Int))

/-! ## `parseIndex` -/

/-- The `for _, option := range options` loop of `parseIndex`, with the
`return "", false, nil` that follows it. -/
def parseIndexLoop : List Bytes → Bytes × Bool × Option GoError
  | [] => ([], false, none)
  | option :: options =>
    match stringsSplit option 58 with
    | [field, indexValue] =>
      match Atoi field with
      | .error err => ([], false, some err)
      | .ok fieldNumber =>
        if fieldNumber = indexFieldNumber then
          if indexValue.length < 3 then
            ([], false, some (.incorrectIndex indexValue))
          else
            (slice indexValue 1 (indexValue.length - 1), true, none)
        else parseIndexLoop options
    | _ => ([], false, some (.incorrectOption option))

/-- Source function `parseIndex`: search for the index option in an options
string.  Returns the Go triple `(index, found, err)`. -/
def parseIndex (optionsStr : Bytes) : Bytes × Bool × Option GoError :=
  parseIndexLoop (stringsSplit optionsStr 32)

/-! ## Templates -/

/-- Source function `headerTemplate`: package and import statement.
`fmt.Sprintf` with the verb `%[k]v` writes its `k`-th string argument
unchanged. -/
def headerTemplate (repoName : Bytes) (projectName : Bytes) (moduleName : Bytes) : Bytes :=
  ascii "\npackage keeper\n\nimport (\n\tsdk \"github.com/cosmos/cosmos-sdk/types\"\n\t\"github.com/cosmos/cosmos-sdk/codec\"\n\t\"github.com/" ++
  repoName ++
  ascii "/" ++
  projectName ++
  ascii "/x/" ++
  moduleName ++
  ascii "/types\"\n)\n"

/-- Source function `setFunctionTemplate`: the template of a set function.
`fmt.Sprintf` with the verb `%[k]v` writes its `k`-th string argument
unchanged. -/
def setFunctionTemplate (typeName : Bytes) (indexName : Bytes) : Bytes :=
  ascii "\n// Set" ++
  typeName ++
  ascii " set a " ++
  typeName ++
  ascii " in the store\nfunc (k Keeper) Set" ++
  typeName ++
  ascii "(ctx sdk.Context, new" ++
  typeName ++
  ascii " types." ++
  typeName ++
  ascii ") \x7b\n\tstore := ctx.KVStore(k.storeKey)\n\tbz := Marshal" ++
  typeName ++
  ascii "(k.cdc, new" ++
  typeName ++
  ascii ")\n\tstore.Set(Get" ++
  typeName ++
  ascii "Key(new" ++
  typeName ++
  ascii "." ++
  indexName ++
  ascii "), bz)\n\x7d\n"

/-- Source function `getFunctionTemplate`: the template of a get function.
`fmt.Sprintf` with the verb `%[k]v` writes its `k`-th string argument
unchanged. -/
def getFunctionTemplate (typeName : Bytes) : Bytes :=
  ascii "\n// Get" ++
  typeName ++
  ascii " retrieve a " ++
  typeName ++
  ascii " from the store\nfunc (k Keeper) Get" ++
  typeName ++
  ascii "(ctx sdk.Context, index string) (ret types." ++
  typeName ++
  ascii ", found bool) \x7b\n\tstore := ctx.KVStore(k.storeKey)\n\n\tvalue := store.Get(Get" ++
  typeName ++
  ascii "Key(index))\n\tif value == nil \x7b\n\t\treturn ret, false\n\t\x7d\n\tret = Unmarshal" ++
  typeName ++
  ascii "(k.cdc, value)\n\n\treturn ret, true\n\x7d\n"

/-- Source function `marschalTemplate`: the template of the encoder.
`fmt.Sprintf` with the verb `%[k]v` writes its `k`-th string argument
unchanged. -/
def marschalTemplate (typeName : Bytes) : Bytes :=
  ascii "\n// Marshal" ++
  typeName ++
  ascii " encodes " ++
  typeName ++
  ascii "s for the store\nfunc Marshal" ++
  typeName ++
  ascii "(cdc codec.BinaryMarshaler, value types." ++
  typeName ++
  ascii ") []byte \x7b\n\treturn cdc.MustMarshalBinaryBare(&value)\n\x7d\n"

/-- Source function `unmarschalTemplate`: the template of the decoder.
`fmt.Sprintf` with the verb `%[k]v` writes its `k`-th string argument
unchanged. -/
def unmarschalTemplate (typeName : Bytes) : Bytes :=
  ascii "\n// Unmarshal" ++
  typeName ++
  ascii " decodes " ++
  typeName ++
  ascii "s from the store\nfunc Unmarshal" ++
  typeName ++
  ascii "(cdc codec.BinaryMarshaler, value []byte) types." ++
  typeName ++
  ascii " \x7b\n\tvar ret types." ++
  typeName ++
  ascii "\n\tcdc.MustUnmarshalBinaryBare(value, &ret)\n\treturn ret\n\x7d\n"

/-- Source function `getKeyTemplate`: the template of the key builder.
`fmt.Sprintf` with the verb `%[k]v` writes its `k`-th string argument
unchanged. -/
def getKeyTemplate (typeName : Bytes) : Bytes :=
  ascii "\n// Get" ++
  typeName ++
  ascii "Key returns the key for the " ++
  typeName ++
  ascii " store\nfunc Get" ++
  typeName ++
  ascii "Key(index string) []byte \x7b\n\treturn append([]byte(\"IndexedTypes-" ++
  typeName ++
  ascii "-\"), []byte(index)...)\n\x7d\n"

/-! ## `generateCode` -/

/-- A `SourceCodeInfo_Location`: the result of `GetPath()`. -/
structure Location where
  path : List Int
  deriving DecidableEq, Repr

/-- A `DescriptorProto`: the result of `GetName()` and, when `GetOptions()`
is not nil, the text `options.String()` of the options record. -/
structure DescriptorProto where
  name : Bytes
  options : Option Bytes
  deriving DecidableEq, Repr

/-- A `FileDescriptorProto`: `GetMessageType()` and
`GetSourceCodeInfo().GetLocation()` (empty when there is no source info). -/
structure FileDescriptorProto where
  messageType : List DescriptorProto
  location : List Location
  deriving DecidableEq, Repr

/-- A `CodeGeneratorRequest`: `GetProtoFile()`. -/
structure CodeGeneratorRequest where
  protoFile : List FileDescriptorProto
  deriving DecidableEq, Repr

/-- A `CodeGeneratorResponse_File`. -/
structure CodeGeneratorResponse_File where
  name : Option Bytes
  content : Option Bytes
  deriving DecidableEq, Repr

/-- A `CodeGeneratorResponse`: the field `File`. -/
structure CodeGeneratorResponse where
  file : List CodeGeneratorResponse_File
  deriving DecidableEq, Repr

/-- What one step of the walk does to the run: go on with the buffer `buf`,
return the error `err`, or stop in a run-time panic (index out of range). -/
inductive Flow where
  | next (buf : Bytes)
  | fail (err : GoError)
  | panic
  deriving DecidableEq, Repr

/-- What a call of `generateCode` does: it returns `err` with the response in
state `res`, or it stops in a run-time panic. -/
inductive Outcome where
  | returned (err : Option GoError) (res : CodeGeneratorResponse)
  | panicked
  deriving DecidableEq, Repr

/-- The five `buf.WriteString` calls of the `if found` branch.
`bytes.Buffer.WriteString` appends and its error is always nil. -/
def writeMethods (buf typeName indexName : Bytes) : Bytes :=
  buf ++ getKeyTemplate typeName ++ unmarschalTemplate typeName ++
    marschalTemplate typeName ++ getFunctionTemplate typeName ++
    setFunctionTemplate typeName indexName

/-- The part of the loop body that follows the message lookup: the options
check, the call of `parseIndex` and the writes of the `if found` branch. -/
def visitMessage (buf : Bytes) (message : DescriptorProto) : Flow :=
  let typeName := message.name
  match message.options with
  | none => .next buf
  | some options =>
    match parseIndex options with
    | (indexName, found, err) =>
      match err with
      | some e => .fail e
      | none =>
        if found then .next (writeMethods buf typeName indexName)
        else .next buf

/-- The body of `for _, location := range locations`.  The index expression
`protofile.GetMessageType()[location.GetPath()[1]]` panics when the index is
negative or not below the length of the message list. -/
def visitLocation (protofile : FileDescriptorProto) (buf : Bytes)
    (location : Location) : Flow :=
  match location.path with
  | [first, second] =>
    if first = 4 then
      if second < 0 then .panic
      else
        match protofile.messageType[second.toNat]? with
        | none => .panic
        | some message => visitMessage buf message
    else .next buf
  | _ => .next buf

/-- The loop `for _, location := range locations`. -/
def visitLocations (protofile : FileDescriptorProto) :
    Bytes → List Location → Flow
  | buf, [] => .next buf
  | buf, location :: locations =>
    match visitLocation protofile buf location with
    | .next buf1 => visitLocations protofile buf1 locations
    | stop => stop

/-- The loop `for _, protofile := range req.GetProtoFile()`. -/
def visitFiles : Bytes → List FileDescriptorProto → Flow
  | buf, [] => .next buf
  | buf, protofile :: protofiles =>
    match visitLocations protofile buf protofile.location with
    | .next buf1 => visitFiles buf1 protofiles
    | stop => stop

/-- Source function `generateCode`: generates code from the protobuf
definition.  `res` is the response before the call. -/
def generateCode (req : CodeGeneratorRequest) (res : CodeGeneratorResponse) :
    Outcome :=
  let filename := ascii "keeper.pb.go"
  let buf := headerTemplate (ascii "titi") (ascii "toto") (ascii "tata")
  match visitFiles buf req.protoFile with
  | .panic => .panicked
  | .fail err => .returned (some err) res
  | .next content =>
    .returned none { file := res.file ++ [{ name := some filename, content := some content }] }

/-! ## Definitions that follow the wording of the specification -/

/-- Go `strings.Join(tokens, sep)` for a separator of one byte: the payload
that is the `sep`-joined sequence of `tokens`. -/
def stringsJoin : List Bytes → Nat → Bytes
  | [], _ => []
  | [token], _ => token
  | token :: next :: tokens, sep => token ++ sep :: stringsJoin (next :: tokens) sep

/-- The token `53535:v` (the field number 53535, a colon, then `v`). -/
def indexToken (v : Bytes) : Bytes := ascii "53535:" ++ v

/-- The string `s` wrapped in two double-quote characters. -/
def quoted (s : Bytes) : Bytes := 34 :: s ++ [34]

/-- A token of the form `<integer>:<value>` whose field number is not the
constant: it has no space, it has exactly one colon, and `strconv.Atoi` reads
the text before the colon as an integer different from 53535. -/
def otherFieldToken (token : Bytes) : Bool :=
  !token.contains 32 && token.count 58 == 1 &&
    match Atoi (token.takeWhile (fun c => c != 58)) with
    | .ok fieldNumber => fieldNumber != indexFieldNumber
    | .error _ => false

/-- The header fragment that `generateCode` writes first. -/
def header : Bytes := headerTemplate (ascii "titi") (ascii "toto") (ascii "tata")

/-- The produced artifact: the constant file name and the content. -/
def artifact (content : Bytes) : CodeGeneratorResponse_File :=
  { name := some (ascii "keeper.pb.go"), content := some content }

/-- The block of five fragments in the fixed order key-builder, decoder,
encoder, getter, setter. -/
def block (typeName indexName : Bytes) : Bytes :=
  getKeyTemplate typeName ++ unmarschalTemplate typeName ++ marschalTemplate typeName ++
    getFunctionTemplate typeName ++ setFunctionTemplate typeName indexName

/-- The block of a message: its five fragments when it is annotated (it has
an options payload that parses with `found = true`), nothing otherwise. -/
def messageBlock (message : DescriptorProto) : Bytes :=
  match message.options with
  | none => []
  | some options =>
    if (parseIndex options).2.1 then block message.name (parseIndex options).1 else []

/-- The content the specification describes: the header followed by one block
per annotated message, in file order and then in message-declaration order. -/
def declarationOrderContent (req : CodeGeneratorRequest) : Bytes :=
  header ++ (req.protoFile.map (fun protofile =>
    (protofile.messageType.map messageBlock).flatten)).flatten

/-- The message index of a location entry: the second element of a path of
length two whose first element is 4 (the message-type field number). -/
def messageIndex (location : Location) : Option Int :=
  match location.path with
  | [first, second] => if first = 4 then some second else none
  | _ => none

/-- The message with index `i` of a file, when `i` indexes into its message
list. -/
def messageAt (protofile : FileDescriptorProto) (i : Int) : Option DescriptorProto :=
  if i < 0 then none else protofile.messageType[i.toNat]?

/-- The message a location entry declares, when its path is a message path
that indexes into the message list of the file. -/
def messageOf (protofile : FileDescriptorProto) (location : Location) :
    Option DescriptorProto :=
  match messageIndex location with
  | none => none
  | some i => messageAt protofile i

/-- The location table of a file lists its messages in declaration order,
each once: the message paths in it are `[4,0], [4,1], ..., [4,n-1]`. -/
def locationsInDeclarationOrder (protofile : FileDescriptorProto) : Bool :=
  protofile.location.filterMap messageIndex ==
    (List.range protofile.messageType.length).map Int.ofNat

/-- A message is processed without error: it has no options, or its options
payload parses with a nil error. -/
def messagePasses (message : DescriptorProto) : Bool :=
  match message.options with
  | none => true
  | some options => (parseIndex options).2.2 == none

/-- A location entry is processed successfully: it is not a message path, or
it indexes into the message list and its message is processed without
error. -/
def locationPasses (protofile : FileDescriptorProto) (location : Location) : Bool :=
  match messageIndex location with
  | none => true
  | some _ =>
    match messageOf protofile location with
    | none => false
    | some message => messagePasses message

/-- A location entry yields no block: it is not a message path, or it indexes
into the message list and its message has no options or an options payload
on which `parseIndex` returns `("", false, nil)`. -/
def locationUnannotated (protofile : FileDescriptorProto) (location : Location) : Bool :=
  match messageIndex location with
  | none => true
  | some _ =>
    match messageOf protofile location with
    | none => false
    | some message =>
      match message.options with
      | none => true
      | some options => parseIndex options == ([], false, none)

/-- The payload carries a token with field number 53535: some space-separated
token has a text before its first colon that reads as the integer 53535. -/
def carriesIndexToken (options : Bytes) : Bool :=
  (stringsSplit options 32).any (fun token =>
    match Atoi (token.takeWhile (fun c => c != 58)) with
    | .ok fieldNumber => fieldNumber == indexFieldNumber
    | .error _ => false)

/-- The schema description has zero annotated messages: no message has an
options payload that carries a token with field number 53535. -/
def zeroAnnotated (req : CodeGeneratorRequest) : Bool :=
  req.protoFile.all (fun protofile =>
    protofile.messageType.all (fun message =>
      match message.options with
      | none => true
      | some options => !carriesIndexToken options))

/-- The block of the message with index `i` of a file. -/
def indexBlock (protofile : FileDescriptorProto) (i : Int) : Bytes :=
  match messageAt protofile i with
  | none => []
  | some message => messageBlock message

/-- The text a location entry contributes: the block of its message. -/
def locationBlock (protofile : FileDescriptorProto) (location : Location) : Bytes :=
  match messageOf protofile location with
  | none => []
  | some message => messageBlock message

/-- The text a file contributes: the blocks of the entries of its location
table, in table order. -/
def fileBlocks (protofile : FileDescriptorProto) : Bytes :=
  (protofile.location.map (locationBlock protofile)).flatten

/-! ## Example requests -/

/-- One file with the single message `Post`, annotated with `53535:"creator"`,
and a location table as the compiler writes it: the file, the package, the
message `[4,0]`, its name, its first field. -/
def reqPost : CodeGeneratorRequest :=
  { protoFile := [{
      messageType := [{ name := ascii "Post", options := some (ascii "53535:\"creator\"") }],
      location := [⟨[]⟩, ⟨[2]⟩, ⟨[4, 0]⟩, ⟨[4, 0, 1]⟩, ⟨[4, 0, 2, 0]⟩] }] }

/-- One file declaring `A` (annotated with index `x`), `B` (options without
the annotation) and `C` (annotated with index `y`), with its messages listed
in declaration order in the location table. -/
def reqABC : CodeGeneratorRequest :=
  { protoFile := [{
      messageType := [
        { name := ascii "A", options := some (ascii "53535:\"x\"") },
        { name := ascii "B", options := some (ascii "7:1") },
        { name := ascii "C", options := some (ascii "53535:\"y\"") }],
      location := [⟨[4, 0]⟩, ⟨[4, 1]⟩, ⟨[4, 2]⟩] }] }

/-- The messages `A` and `C` of `reqABC`, with a location table that lists the
second message before the first. -/
def reqReversed : CodeGeneratorRequest :=
  { protoFile := [{
      messageType := [
        { name := ascii "A", options := some (ascii "53535:\"x\"") },
        { name := ascii "C", options := some (ascii "53535:\"y\"") }],
      location := [⟨[4, 1]⟩, ⟨[4, 0]⟩] }] }

/-- One file with the single message `M` that carries the standard option
`deprecated` and no annotation. -/
def reqDeprecated : CodeGeneratorRequest :=
  { protoFile := [{
      messageType := [{ name := ascii "M", options := some (ascii "deprecated:true") }],
      location := [⟨[4, 0]⟩] }] }

/-- One file declaring `A` (annotated) and then `B`, whose options payload is
the ill-formed token `abc`. -/
def reqIllFormed : CodeGeneratorRequest :=
  { protoFile := [{
      messageType := [
        { name := ascii "A", options := some (ascii "53535:\"x\"") },
        { name := ascii "B", options := some (ascii "abc") }],
      location := [⟨[4, 0]⟩, ⟨[4, 1]⟩] }] }

/-- A response that already holds one file. -/
def resOne : CodeGeneratorResponse :=
  { file := [{ name := some (ascii "other.go"), content := some (ascii "package other\n") }] }

/-- One file declaring `M` without options and `N` with options that do not
carry the annotation, both listed in the location table. -/
def reqPlain : CodeGeneratorRequest :=
  { protoFile := [{
      messageType := [
        { name := ascii "M", options := none },
        { name := ascii "N", options := some (ascii "7:1") }],
      location := [⟨[4, 0]⟩, ⟨[4, 0, 1]⟩, ⟨[4, 1]⟩] }] }

/-! ## The failure condition of `parseIndex` in the words of the specification -/

/-- The field part of a token: the text before its first colon. -/
def fieldPart (token : Bytes) : Bytes := token.takeWhile (fun c => c != 58)

/-- The value of a token: the text after its first colon. -/
def valuePart (token : Bytes) : Bytes := (token.dropWhile (fun c => c != 58)).tail

/-- The token splits on `:` into exactly two parts. -/
def splitsInTwo (token : Bytes) : Bool := (stringsSplit token 58).length == 2

/-- The field part of the token is parsable as a decimal integer. -/
def fieldParsable (token : Bytes) : Bool :=
  match Atoi (fieldPart token) with
  | .ok _ => true
  | .error _ => false

/-- The field number of the token equals 53535. -/
def isMatchingToken (token : Bytes) : Bool :=
  match Atoi (fieldPart token) with
  | .ok fieldNumber => fieldNumber == indexFieldNumber
  | .error _ => false

/-- An ill-formed token: it does not split into exactly two colon-separated
parts, or its field part is not a valid integer. -/
def illFormedToken (token : Bytes) : Bool :=
  !splitsInTwo token || !fieldParsable token

/-- The tokens that the scan reads: the tokens in order, up to and including
the first token whose field number equals 53535. -/
def scannedTokens : List Bytes → List Bytes
  | [] => []
  | token :: tokens =>
    if isMatchingToken token then [token] else token :: scannedTokens tokens

/-- A scanned token makes the parse fail: it does not split on `:` into
exactly two parts, or its field part is not parsable as a decimal integer, or
it is the matching token and its value is shorter than 3 bytes. -/
def tokenFails (token : Bytes) : Bool :=
  !splitsInTwo token || !fieldParsable token ||
    (isMatchingToken token && decide ((valuePart token).length < 3))

/-- The failure condition of the specification: some token that the scan of
the space-separated tokens reads makes the parse fail. -/
def failureCondition (optionsStr : Bytes) : Bool :=
  (scannedTokens (stringsSplit optionsStr 32)).any tokenFails

/-! ## The reference definition of the generated content -/

/-- The reference content: the header followed by, for the files in request
order and the entries of each location table in table order, the block of the
message that the entry declares. -/
def referenceContent (req : CodeGeneratorRequest) : Bytes :=
  header ++ (req.protoFile.map fileBlocks).flatten

/-! ## More example requests -/

/-- One file with the single message `A` and a location entry `[4,1]`, one
past the end of the message list. -/
def reqOutOfRange : CodeGeneratorRequest :=
  { protoFile := [{
      messageType := [{ name := ascii "A", options := some (ascii "53535:\"x\"") }],
      location := [⟨[4, 1]⟩] }] }

/-- One file with the single message `A` and a location entry `[4,-1]`. -/
def reqNegativeIndex : CodeGeneratorRequest :=
  { protoFile := [{
      messageType := [{ name := ascii "A", options := some (ascii "53535:\"x\"") }],
      location := [⟨[4, -1]⟩] }] }

/-- Two files.  The first declares `A` and `C`, both annotated; its table
names `C` twice and `A` never, and holds the path `[4,0,1]` of the name of
`A`.  The second declares the annotated message `A` and has an empty table. -/
def reqRepeated : CodeGeneratorRequest :=
  { protoFile := [
      { messageType := [
          { name := ascii "A", options := some (ascii "53535:\"x\"") },
          { name := ascii "C", options := some (ascii "53535:\"y\"") }],
        location := [⟨[4, 1]⟩, ⟨[4, 0, 1]⟩, ⟨[4, 1]⟩] },
      { messageType := [{ name := ascii "A", options := some (ascii "53535:\"x\"") }],
        location := [] }] }

/-- One file declaring `M` without options and then the annotated message
`A`, both listed in the location table. -/
def reqNoOptions : CodeGeneratorRequest :=
  { protoFile := [{
      messageType := [
        { name := ascii "M", options := none },
        { name := ascii "A", options := some (ascii "53535:\"x\"") }],
      location := [⟨[4, 0]⟩, ⟨[4, 1]⟩] }] }

/-! ## The three result shapes of `parseIndex` -/

/-- The shape `(index, true, nil)` with a non-empty index that contains no
space and no colon. -/
def shapeFound (r : Bytes × Bool × Option GoError) : Prop :=
  r.2.1 = true ∧ r.2.2 = none ∧ r.1 ≠ [] ∧ 32 ∉ r.1 ∧ 58 ∉ r.1

/-- The shape `("", false, nil)`. -/
def shapeNotFound (r : Bytes × Bool × Option GoError) : Prop :=
  r.1 = [] ∧ r.2.1 = false ∧ r.2.2 = none

/-- The shape `("", false, err)` with a non-nil error. -/
def shapeError (r : Bytes × Bool × Option GoError) : Prop :=
  r.1 = [] ∧ r.2.1 = false ∧ r.2.2 ≠ none

/-! ## Decimal integers and the range of `int` -/

/-- The string is a decimal integer: an optional sign `+` or `-`, then at
least one decimal digit and nothing else. -/
def isDecimalInteger (s : Bytes) : Bool :=
  match s with
  | [] => false
  | c :: rest =>
    let digits : Bytes := if c = 45 ∨ c = 43 then rest else s
    !digits.isEmpty && digits.all isDigit

/-- The integer that a decimal integer denotes. -/
def decimalValue (s : Bytes) : Int :=
  match s with
  | [] => 0
  | c :: rest =>
    if c = 45 then -(digitsValue rest : Int)
    else if c = 43 then (digitsValue rest : Int)
    else (digitsValue s : Int)

/-- The integer is within the range of the Go type `int` (64 bits):
`-2^63 ≤ n < 2^63`. -/
def inIntRange (n : Int) : Bool :=
  decide (-(2 : Int) ^ 63 ≤ n) && decide (n < (2 : Int) ^ 63)

/-- A token `<integer>:<value>` with another field number, without reference
to `strconv.Atoi`: it has no space, it has exactly one colon, its field part
is a decimal integer within the range of `int`, and that integer is not
53535. -/
def decimalFieldToken (token : Bytes) : Bool :=
  !token.contains 32 && token.count 58 == 1 && isDecimalInteger (fieldPart token) &&
    inIntRange (decimalValue (fieldPart token)) &&
    decimalValue (fieldPart token) != indexFieldNumber

/-! ## `strings.Split` -/

theorem stringsSplit_ne_nil (s : Bytes) (sep : Nat) : stringsSplit s sep ≠ [] := by
  induction s with
  | nil => simp [stringsSplit]
  | cons c cs ih =>
    unfold stringsSplit
    split
    · simp
    · split <;> simp

/-- A string without the separator is its own single piece. -/
theorem stringsSplit_of_not_mem (s : Bytes) (sep : Nat) (h : sep ∉ s) :
    stringsSplit s sep = [s] := by
  induction s with
  | nil => simp [stringsSplit]
  | cons c cs ih =>
    have hc : c ≠ sep := fun e => h (by simp [e])
    have hcs : sep ∉ cs := fun e => h (by simp [e])
    simp [stringsSplit, hc, ih hcs]

/-- The first piece ends at the first separator. -/
theorem stringsSplit_append_sep (a b : Bytes) (sep : Nat) (h : sep ∉ a) :
    stringsSplit (a ++ sep :: b) sep = a :: stringsSplit b sep := by
  induction a with
  | nil => simp [stringsSplit]
  | cons c cs ih =>
    have hc : c ≠ sep := fun e => h (by simp [e])
    have hcs : sep ∉ cs := fun e => h (by simp [e])
    simp [stringsSplit, hc, ih hcs]

theorem ascii_53535 : ascii "53535" = [53, 51, 53, 51, 53] := by decide

theorem Atoi_53535 : Atoi (ascii "53535") = .ok 53535 := by rfl

theorem stringsSplit_indexToken (v : Bytes) (hv : 58 ∉ v) :
    stringsSplit (indexToken v) 58 = [ascii "53535", v] := by
  have h : indexToken v = ascii "53535" ++ 58 :: v := by
    simp [indexToken, ascii]
  rw [h, stringsSplit_append_sep _ _ _ (by decide), stringsSplit_of_not_mem v 58 hv]

/-- The number of pieces is the number of separators plus one. -/
theorem length_stringsSplit (s : Bytes) (sep : Nat) :
    (stringsSplit s sep).length = s.count sep + 1 := by
  induction s with
  | nil => simp [stringsSplit]
  | cons c cs ih =>
    by_cases hc : c = sep
    · subst hc
      simp [stringsSplit, ih]
    · have hne : (c == sep) = false := by simpa using hc
      cases hs : stringsSplit cs sep with
      | nil => exact absurd hs (stringsSplit_ne_nil cs sep)
      | cons piece pieces =>
        rw [hs] at ih
        simp [stringsSplit, hc, hs, List.count_cons, hne] at ih ⊢
        omega

/-- A string with exactly one separator splits into the text before it and
the text after it. -/
theorem stringsSplit_of_count_eq_one (s : Bytes) (sep : Nat) (h : s.count sep = 1) :
    stringsSplit s sep =
      [s.takeWhile (fun c => c != sep), (s.dropWhile (fun c => c != sep)).tail] := by
  induction s with
  | nil => simp at h
  | cons c cs ih =>
    by_cases hc : c = sep
    · subst hc
      have h0 : cs.count c = 0 := by simpa [List.count_cons] using h
      have hnot : c ∉ cs := List.count_eq_zero.mp h0
      simp [stringsSplit, stringsSplit_of_not_mem cs c hnot]
    · have hne : (c == sep) = false := by simpa using hc
      have h1 : cs.count sep = 1 := by simpa [List.count_cons, hne] using h
      simp [stringsSplit, hc, ih h1, List.takeWhile_cons, List.dropWhile_cons]

/-! ## `strings.Join` followed by `strings.Split` -/

theorem stringsJoin_cons_cons (a b : Bytes) (l : List Bytes) (sep : Nat) :
    stringsJoin (a :: b :: l) sep = a ++ sep :: stringsJoin (b :: l) sep := rfl

/-- The first token of a joined payload is the first piece of its split. -/
theorem stringsSplit_stringsJoin_cons (t : Bytes) (R : List Bytes) (sep : Nat)
    (ht : sep ∉ t) :
    ∃ rest, stringsSplit (stringsJoin (t :: R) sep) sep = t :: rest := by
  cases R with
  | nil => exact ⟨[], by simp [stringsJoin, stringsSplit_of_not_mem t sep ht]⟩
  | cons b l =>
    exact ⟨_, by rw [stringsJoin_cons_cons, stringsSplit_append_sep _ _ _ ht]⟩

/-- Tokens without the separator that are joined in front of `t` come out of
the split unchanged, in front of the pieces of what follows. -/
theorem stringsSplit_stringsJoin_append (P : List Bytes) (t : Bytes) (R : List Bytes)
    (sep : Nat) (hP : ∀ p ∈ P, sep ∉ p) :
    stringsSplit (stringsJoin (P ++ t :: R) sep) sep =
      P ++ stringsSplit (stringsJoin (t :: R) sep) sep := by
  induction P with
  | nil => simp
  | cons p P ih =>
    have hp : sep ∉ p := hP p (by simp)
    have hrest : ∀ q ∈ P, sep ∉ q := fun q hq => hP q (by simp [hq])
    cases hPt : P ++ t :: R with
    | nil => simp at hPt
    | cons b l =>
      rw [List.cons_append, hPt, stringsJoin_cons_cons, stringsSplit_append_sep _ _ _ hp,
        ← hPt, ih hrest, List.cons_append]

/-- Splitting a joined non-empty sequence of tokens without the separator
gives the tokens back. -/
theorem stringsSplit_stringsJoin (toks : List Bytes) (sep : Nat) (hne : toks ≠ [])
    (h : ∀ p ∈ toks, sep ∉ p) : stringsSplit (stringsJoin toks sep) sep = toks := by
  induction toks with
  | nil => exact absurd rfl hne
  | cons p P ih =>
    have hp : sep ∉ p := h p (by simp)
    cases P with
    | nil => simp [stringsJoin, stringsSplit_of_not_mem p sep hp]
    | cons b l =>
      rw [stringsJoin_cons_cons, stringsSplit_append_sep _ _ _ hp,
        ih (by simp) (fun q hq => h q (by simp [hq]))]

/-! ## `strconv.Atoi` -/

/-- A string that `strconv.Atoi` accepts is made of signs and digits. -/
theorem Atoi_ok_bytes (s : Bytes) (n : Int) (h : Atoi s = .ok n) :
    ∀ c ∈ s, c = 43 ∨ c = 45 ∨ isDigit c = true := by
  cases s with
  | nil => simp [Atoi] at h
  | cons c rest =>
    have hd : ¬ ((if c = 45 ∨ c = 43 then rest else c :: rest) = [] ∨
        (if c = 45 ∨ c = 43 then rest else c :: rest).all isDigit = false) := by
      intro hbad
      simp only [Atoi] at h
      rw [if_pos hbad] at h
      cases h
    have hall : ∀ x ∈ (if c = 45 ∨ c = 43 then rest else c :: rest), isDigit x = true := by
      intro x hx
      by_contra hx2
      apply hd
      right
      rw [List.all_eq_false]
      exact ⟨x, hx, hx2⟩
    intro x hx
    by_cases hc : c = 45 ∨ c = 43
    · rw [if_pos hc] at hall
      rcases List.mem_cons.mp hx with rfl | hx
      · rcases hc with hc | hc
        · exact Or.inr (Or.inl hc)
        · exact Or.inl hc
      · exact Or.inr (Or.inr (hall x hx))
    · rw [if_neg hc] at hall
      exact Or.inr (Or.inr (hall x hx))

theorem Atoi_ok_no_colon (s : Bytes) (n : Int) (h : Atoi s = .ok n) : 58 ∉ s := by
  intro hm
  rcases Atoi_ok_bytes s n h 58 hm with h1 | h1 | h1 <;> simp [isDigit] at h1

theorem Atoi_ok_no_space (s : Bytes) (n : Int) (h : Atoi s = .ok n) : 32 ∉ s := by
  intro hm
  rcases Atoi_ok_bytes s n h 32 hm with h1 | h1 | h1 <;> simp [isDigit] at h1

/-- On a decimal integer, `strconv.Atoi` returns its value when the value is
within the range of `int`, and a range error otherwise. -/
theorem Atoi_of_isDecimalInteger (s : Bytes) (h : isDecimalInteger s = true) :
    Atoi s =
      if inIntRange (decimalValue s) = true then .ok (decimalValue s)
      else .error (.numError s .rangeErr) := by
  cases s with
  | nil => simp [isDecimalInteger] at h
  | cons c rest =>
    simp only [isDecimalInteger, Bool.and_eq_true] at h
    obtain ⟨hne, hall⟩ := h
    have hsyn : ¬ ((if c = 45 ∨ c = 43 then rest else c :: rest) = [] ∨
        (if c = 45 ∨ c = 43 then rest else c :: rest).all isDigit = false) := by
      intro hbad
      rcases hbad with hbad | hbad
      · rw [hbad] at hne
        simp at hne
      · rw [hall] at hbad
        cases hbad
    have hpow : (2 : Nat) ^ (intSize - 1) = 9223372036854775808 := by
      simp only [intSize]
      norm_num
    have hrange : ∀ n : Int, inIntRange n = true ↔
        (-9223372036854775808 ≤ n ∧ n < 9223372036854775808) := by
      intro n
      simp only [inIntRange, Bool.and_eq_true, decide_eq_true_eq]
      norm_num
    have hA : Atoi (c :: rest) =
        if decide (c = 45) = false ∧
            9223372036854775808 ≤ digitsValue (if c = 45 ∨ c = 43 then rest else c :: rest) then
          .error (.numError (c :: rest) .rangeErr)
        else if decide (c = 45) = true ∧
            9223372036854775808 < digitsValue (if c = 45 ∨ c = 43 then rest else c :: rest) then
          .error (.numError (c :: rest) .rangeErr)
        else .ok (if decide (c = 45) = true
          then -(digitsValue (if c = 45 ∨ c = 43 then rest else c :: rest) : Int)
          else (digitsValue (if c = 45 ∨ c = 43 then rest else c :: rest) : Int)) := by
      simp only [Atoi, if_neg hsyn, hpow]
    rw [hA]
    by_cases h45 : c = 45
    · have hD : (if c = 45 ∨ c = 43 then rest else c :: rest) = rest := by simp [h45]
      have hv : decimalValue (c :: rest) = -(digitsValue rest : Int) := by
        simp [decimalValue, h45]
      have hd : decide (c = 45) = true := by simp [h45]
      rw [hD, hv, hd]
      by_cases hin : inIntRange (-(digitsValue rest : Int)) = true
      · have hle : ¬ (9223372036854775808 < digitsValue rest) := by
          have := (hrange _).mp hin
          omega
        rw [if_pos hin, if_neg (by simp), if_neg (fun hx => hle hx.2), if_pos rfl]
      · have hgt : 9223372036854775808 < digitsValue rest := by
          by_contra hle
          apply hin
          rw [hrange]
          omega
        rw [if_neg hin, if_neg (by simp), if_pos ⟨rfl, hgt⟩]
    · have hD : (if c = 45 ∨ c = 43 then rest else c :: rest) =
          (if c = 43 then rest else c :: rest) := by simp [h45]
      have hv : decimalValue (c :: rest) =
          (digitsValue (if c = 43 then rest else c :: rest) : Int) := by
        by_cases h43 : c = 43 <;> simp [decimalValue, h45, h43]
      have hd : decide (c = 45) = false := by simp [h45]
      rw [hD, hv, hd]
      by_cases hin : inIntRange (digitsValue (if c = 43 then rest else c :: rest) : Int) = true
      · have hlt : ¬ (9223372036854775808 ≤
            digitsValue (if c = 43 then rest else c :: rest)) := by
          have := (hrange _).mp hin
          omega
        rw [if_pos hin, if_neg (fun hx => hlt hx.2), if_neg (by simp), if_neg (by simp)]
      · have hge : 9223372036854775808 ≤
            digitsValue (if c = 43 then rest else c :: rest) := by
          by_contra hlt
          apply hin
          rw [hrange]
          omega
        rw [if_neg hin, if_pos ⟨rfl, hge⟩]

/-! ## One round of the loop of `parseIndex` -/

/-- A token that does not split into exactly two parts ends the loop with the
error "incorrect option". -/
theorem parseIndexLoop_cons_arity (t : Bytes) (rest : List Bytes)
    (h : (stringsSplit t 58).length ≠ 2) :
    parseIndexLoop (t :: rest) = ([], false, some (.incorrectOption t)) := by
  unfold parseIndexLoop
  split
  · rename_i heq
    rw [heq] at h
    simp at h
  · rfl

/-- A token that splits into `field` and `indexValue`: the rest of the round. -/
theorem parseIndexLoop_cons_pair (t field indexValue : Bytes) (rest : List Bytes)
    (h : stringsSplit t 58 = [field, indexValue]) :
    parseIndexLoop (t :: rest) =
      match Atoi field with
      | .error err => ([], false, some err)
      | .ok fieldNumber =>
        if fieldNumber = indexFieldNumber then
          if indexValue.length < 3 then ([], false, some (.incorrectIndex indexValue))
          else (slice indexValue 1 (indexValue.length - 1), true, none)
        else parseIndexLoop rest := by
  rw [parseIndexLoop, h]

/-- A well-formed token with another field number is passed over. -/
theorem parseIndexLoop_cons_other (t : Bytes) (rest : List Bytes)
    (h : otherFieldToken t = true) : parseIndexLoop (t :: rest) = parseIndexLoop rest := by
  simp only [otherFieldToken, Bool.and_eq_true, beq_iff_eq] at h
  obtain ⟨⟨_, hcount⟩, hfield⟩ := h
  rw [parseIndexLoop_cons_pair t _ _ rest (stringsSplit_of_count_eq_one t 58 hcount)]
  cases hA : Atoi (t.takeWhile (fun c => c != 58)) with
  | error e => simp [hA] at hfield
  | ok n =>
    have hn : n ≠ indexFieldNumber := by simpa [hA] using hfield
    simp [hn]

/-- Well-formed tokens with other field numbers in front are all passed over. -/
theorem parseIndexLoop_append_other (P rest : List Bytes)
    (hP : ∀ p ∈ P, otherFieldToken p = true) :
    parseIndexLoop (P ++ rest) = parseIndexLoop rest := by
  induction P with
  | nil => rfl
  | cons p P ih =>
    rw [List.cons_append, parseIndexLoop_cons_other p _ (hP p (by simp))]
    exact ih (fun q hq => hP q (by simp [hq]))

theorem otherFieldToken_no_space (t : Bytes) (h : otherFieldToken t = true) : 32 ∉ t := by
  simp only [otherFieldToken, Bool.and_eq_true] at h
  simpa using h.1.1

/-- A decimal integer is made of signs and digits. -/
theorem isDecimalInteger_bytes (s : Bytes) (h : isDecimalInteger s = true) :
    ∀ c ∈ s, c = 43 ∨ c = 45 ∨ isDigit c = true := by
  cases s with
  | nil => simp [isDecimalInteger] at h
  | cons c rest =>
    simp only [isDecimalInteger, Bool.and_eq_true] at h
    have hall : ∀ x ∈ (if c = 45 ∨ c = 43 then rest else c :: rest), isDigit x = true :=
      List.all_eq_true.mp h.2
    intro x hx
    by_cases hc : c = 45 ∨ c = 43
    · rw [if_pos hc] at hall
      rcases List.mem_cons.mp hx with rfl | hx
      · rcases hc with hc | hc
        · exact Or.inr (Or.inl hc)
        · exact Or.inl hc
      · exact Or.inr (Or.inr (hall x hx))
    · rw [if_neg hc] at hall
      exact Or.inr (Or.inr (hall x hx))

theorem isDecimalInteger_no_colon (s : Bytes) (h : isDecimalInteger s = true) : 58 ∉ s := by
  intro hm
  rcases isDecimalInteger_bytes s h 58 hm with h1 | h1 | h1 <;> simp [isDigit] at h1

theorem isDecimalInteger_no_space (s : Bytes) (h : isDecimalInteger s = true) : 32 ∉ s := by
  intro hm
  rcases isDecimalInteger_bytes s h 32 hm with h1 | h1 | h1 <;> simp [isDigit] at h1

/-- A token whose field part is a decimal integer within the range of `int`
and different from 53535 is a token that `strconv.Atoi` reads as such. -/
theorem otherFieldToken_of_decimalFieldToken (t : Bytes) (h : decimalFieldToken t = true) :
    otherFieldToken t = true := by
  simp only [decimalFieldToken, Bool.and_eq_true] at h
  obtain ⟨⟨⟨⟨hsp, hcount⟩, hint⟩, hrange⟩, hne⟩ := h
  have hA := Atoi_of_isDecimalInteger (fieldPart t) hint
  rw [if_pos hrange] at hA
  simp only [otherFieldToken, Bool.and_eq_true]
  refine ⟨⟨hsp, hcount⟩, ?_⟩
  show (match Atoi (fieldPart t) with
    | .ok fieldNumber => fieldNumber != indexFieldNumber
    | .error _ => false) = true
  rw [hA]
  exact hne

/-- The token `53535:v` with a value of at least three bytes and no colon ends
the loop with the value stripped of its first and last byte. -/
theorem parseIndexLoop_cons_indexToken (v : Bytes) (rest : List Bytes)
    (hcol : 58 ∉ v) (hlen : 3 ≤ v.length) :
    parseIndexLoop (indexToken v :: rest) = (slice v 1 (v.length - 1), true, none) := by
  rw [parseIndexLoop_cons_pair _ _ _ rest (stringsSplit_indexToken v hcol), Atoi_53535]
  have : ¬ v.length < 3 := by omega
  simp [indexFieldNumber, this]

/-- The slice `s[1 : len(s)-1]` removes the first and the last byte. -/
theorem slice_one_pred (v : Bytes) : slice v 1 (v.length - 1) = v.tail.dropLast := by
  rw [slice, ← List.dropLast_eq_take, List.drop_one, List.tail_dropLast]

theorem tail_dropLast_quoted (s : Bytes) : (quoted s).tail.dropLast = s := by
  simp [quoted]

/-- The scan of a joined payload: the tokens `P` are passed over and the scan
continues with the pieces that start at the token `t`. -/
theorem parseIndex_stringsJoin_append (P : List Bytes) (t : Bytes) (R : List Bytes)
    (hP : ∀ p ∈ P, otherFieldToken p = true) (ht : 32 ∉ t) :
    ∃ rest, parseIndex (stringsJoin (P ++ t :: R) 32) = parseIndexLoop (t :: rest) := by
  obtain ⟨rest, hrest⟩ := stringsSplit_stringsJoin_cons t R 32 ht
  refine ⟨rest, ?_⟩
  rw [parseIndex, stringsSplit_stringsJoin_append P t R 32
    (fun p hp => otherFieldToken_no_space p (hP p hp)), hrest,
    parseIndexLoop_append_other P _ hP]

theorem indexToken_no_space (v : Bytes) (hsp : 32 ∉ v) : 32 ∉ indexToken v := by
  simp only [indexToken, List.mem_append, not_or]
  exact ⟨by decide, hsp⟩

/-! ## The claims about `parseIndex` -/

/-- C1: for every non-empty string `s` that contains no space and no colon,
`parseIndex` applied to the single-token payload `53535:"s"` returns
`(s, true, nil)`. -/
theorem parseIndex_quoted_index (s : Bytes) (hne : s ≠ []) (hsp : 32 ∉ s)
    (hcol : 58 ∉ s) :
    parseIndex (ascii "53535:" ++ quoted s) = (s, true, none) := by
  have hq58 : 58 ∉ quoted s := by simp [quoted, hcol]
  have hq32 : 32 ∉ quoted s := by simp [quoted, hsp]
  have hlen : 3 ≤ (quoted s).length := by
    have : 0 < s.length := List.length_pos.mpr hne
    simp [quoted]
    omega
  show parseIndex (indexToken (quoted s)) = (s, true, none)
  rw [parseIndex, stringsSplit_of_not_mem _ 32 (indexToken_no_space _ hq32),
    parseIndexLoop_cons_indexToken _ _ hq58 hlen, slice_one_pred, tail_dropLast_quoted]

/-- Witness of C1: the payloads `53535:"creator"` and `53535:"x"`. -/
theorem parseIndex_quoted_index_witness :
    (ascii "creator" ≠ [] ∧ 32 ∉ ascii "creator" ∧ 58 ∉ ascii "creator") ∧
    parseIndex (ascii "53535:\"creator\"") = (ascii "creator", true, none) ∧
    parseIndex (ascii "53535:\"x\"") = (ascii "x", true, none) :=
  ⟨⟨by decide, by decide, by decide⟩,
    parseIndex_quoted_index (ascii "creator") (by decide) (by decide) (by decide),
    parseIndex_quoted_index (ascii "x") (by decide) (by decide) (by decide)⟩

/-- C2, as stated, fails: the token `9223372036854775808:x` has exactly one
colon and an integer field number different from 53535, but the number does
not fit the type `int`; `parseIndex` stops at it with the range error of
`strconv.Atoi` and does not return what it returns on `53535:"ab"` alone. -/
theorem parseIndex_first_match_beyond_int :
    ((ascii "9223372036854775808:x").count 58 = 1 ∧
      isDecimalInteger (fieldPart (ascii "9223372036854775808:x")) = true ∧
      decimalValue (fieldPart (ascii "9223372036854775808:x")) ≠ 53535) ∧
    parseIndex (ascii "9223372036854775808:x 53535:\"ab\"") =
      ([], false, some (.numError (ascii "9223372036854775808") .rangeErr)) ∧
    parseIndex (ascii "53535:\"ab\"") = (ascii "ab", true, none) := by
  decide

/-- C2, amended: first match wins.  For a payload that is the space-joined
sequence of tokens `P`, the token `53535:v` and any further tokens `R`, where
every token of `P` has exactly one colon and a field part that is a decimal
integer within the range of `int` and different from 53535, and `v` has at
least three bytes and no space or colon, `parseIndex` returns what it returns
on `53535:v` alone: `v` without its first and last byte, `true`, `nil`. -/
theorem parseIndex_first_match (P : List Bytes) (v : Bytes) (R : List Bytes)
    (hP : ∀ p ∈ P, decimalFieldToken p = true) (hlen : 3 ≤ v.length)
    (hsp : 32 ∉ v) (hcol : 58 ∉ v) :
    parseIndex (stringsJoin (P ++ indexToken v :: R) 32) = parseIndex (indexToken v) ∧
    parseIndex (indexToken v) = (v.tail.dropLast, true, none) := by
  have hother : ∀ p ∈ P, otherFieldToken p = true :=
    fun p hp => otherFieldToken_of_decimalFieldToken p (hP p hp)
  have hone : parseIndex (indexToken v) = (v.tail.dropLast, true, none) := by
    rw [parseIndex, stringsSplit_of_not_mem _ 32 (indexToken_no_space v hsp),
      parseIndexLoop_cons_indexToken v _ hcol hlen, slice_one_pred]
  refine ⟨?_, hone⟩
  obtain ⟨rest, hrest⟩ :=
    parseIndex_stringsJoin_append P (indexToken v) R hother (indexToken_no_space v hsp)
  rw [hrest, hone, parseIndexLoop_cons_indexToken v rest hcol hlen, slice_one_pred]

/-- Witness of C2, amended: the payload `1:2 -3:x 53535:"ab" 53535:"cd" zz`. -/
theorem parseIndex_first_match_witness :
    (∀ p ∈ [ascii "1:2", ascii "-3:x"], decimalFieldToken p = true) ∧
    parseIndex (ascii "1:2 -3:x 53535:\"ab\" 53535:\"cd\" zz") =
      parseIndex (ascii "53535:\"ab\"") ∧
    parseIndex (ascii "53535:\"ab\"") = (ascii "ab", true, none) :=
  ⟨by decide,
    parseIndex_first_match [ascii "1:2", ascii "-3:x"] (ascii "\"ab\"")
      [ascii "53535:\"cd\"", ascii "zz"] (by decide) (by decide) (by decide) (by decide)⟩

/-- C3, as stated, fails: the payload `9223372036854775808:x` is one token
with exactly one colon whose field part is a decimal integer other than
53535, but the integer does not fit the type `int` and `parseIndex` returns
the range error of `strconv.Atoi`, not `("", false, nil)`. -/
theorem parseIndex_no_match_beyond_int :
    ((ascii "9223372036854775808:x").count 58 = 1 ∧ 32 ∉ ascii "9223372036854775808:x" ∧
      isDecimalInteger (fieldPart (ascii "9223372036854775808:x")) = true ∧
      decimalValue (fieldPart (ascii "9223372036854775808:x")) ≠ 53535) ∧
    parseIndex (ascii "9223372036854775808:x") =
      ([], false, some (.numError (ascii "9223372036854775808") .rangeErr)) := by
  decide

/-- C3, amended: for a payload that is a non-empty space-joined sequence of
tokens `<integer>:<value>` (exactly one colon, no space, the field part a
decimal integer within the range of `int`), none with field number 53535,
`parseIndex` returns `("", false, nil)`. -/
theorem parseIndex_no_match (toks : List Bytes) (hne : toks ≠ [])
    (h : ∀ t ∈ toks, decimalFieldToken t = true) :
    parseIndex (stringsJoin toks 32) = ([], false, none) := by
  have hother : ∀ t ∈ toks, otherFieldToken t = true :=
    fun t ht => otherFieldToken_of_decimalFieldToken t (h t ht)
  rw [parseIndex, stringsSplit_stringsJoin toks 32 hne
    (fun p hp => otherFieldToken_no_space p (hother p hp))]
  have := parseIndexLoop_append_other toks [] hother
  rw [List.append_nil] at this
  rw [this, parseIndexLoop]

/-- Witness of C3, amended: the payload `1:2 7:"a" 53536:x`. -/
theorem parseIndex_no_match_witness :
    ([ascii "1:2", ascii "7:\"a\"", ascii "53536:x"] ≠ [] ∧
      ∀ t ∈ [ascii "1:2", ascii "7:\"a\"", ascii "53536:x"], decimalFieldToken t = true) ∧
    parseIndex (ascii "1:2 7:\"a\" 53536:x") = ([], false, none) :=
  ⟨⟨by decide, by decide⟩,
    parseIndex_no_match [ascii "1:2", ascii "7:\"a\"", ascii "53536:x"] (by decide)
      (by decide)⟩

/-- C9: for every payload whose first token has field number 53535 and a
value of fewer than three bytes, `parseIndex` returns an error with
`found = false` and an empty index: "incorrect index" for a value without a
colon, "incorrect option" for a value with one. -/
theorem parseIndex_short_value (field v : Bytes) (R : List Bytes)
    (hfield : Atoi field = .ok indexFieldNumber) (hsp : 32 ∉ v) (hlen : v.length < 3) :
    parseIndex (stringsJoin ((field ++ 58 :: v) :: R) 32) =
      ([], false,
        some (if 58 ∈ v then .incorrectOption (field ++ 58 :: v) else .incorrectIndex v)) := by
  have hf58 : 58 ∉ field := Atoi_ok_no_colon field _ hfield
  have hf32 : 32 ∉ field := Atoi_ok_no_space field _ hfield
  have ht : 32 ∉ field ++ 58 :: v := by simp [hf32, hsp]
  obtain ⟨rest, hrest⟩ := parseIndex_stringsJoin_append [] (field ++ 58 :: v) R (by simp) ht
  rw [List.nil_append] at hrest
  rw [hrest]
  by_cases hv : 58 ∈ v
  · rw [if_pos hv]
    apply parseIndexLoop_cons_arity
    rw [stringsSplit_append_sep _ _ _ hf58, List.length_cons, length_stringsSplit]
    have : 0 < v.count 58 := List.count_pos_iff.mpr hv
    omega
  · rw [if_neg hv, parseIndexLoop_cons_pair _ field v rest
      (by rw [stringsSplit_append_sep _ _ _ hf58, stringsSplit_of_not_mem v 58 hv]), hfield]
    simp [hlen]

/-- Witness of C9: the payload `53535:""`, whose value is the two quotes. -/
theorem parseIndex_short_value_witness :
    (Atoi (ascii "53535") = .ok indexFieldNumber ∧ 32 ∉ ascii "\"\"" ∧
      (ascii "\"\"").length < 3) ∧
    parseIndex (ascii "53535:\"\"") = ([], false, some (.incorrectIndex (ascii "\"\""))) :=
  ⟨⟨rfl, by decide, by decide⟩,
    parseIndex_short_value (ascii "53535") (ascii "\"\"") [] rfl (by decide) (by decide)⟩

/-- C10: when the scan reaches a token with no colon or with more than one
colon (every earlier token is well formed with a field number other than
53535), `parseIndex` returns the error "incorrect option" for that token, with
`found = false`. -/
theorem parseIndex_colon_arity (P : List Bytes) (t : Bytes) (R : List Bytes)
    (hP : ∀ p ∈ P, otherFieldToken p = true) (hsp : 32 ∉ t) (hcolon : t.count 58 ≠ 1) :
    parseIndex (stringsJoin (P ++ t :: R) 32) = ([], false, some (.incorrectOption t)) := by
  obtain ⟨rest, hrest⟩ := parseIndex_stringsJoin_append P t R hP hsp
  rw [hrest]
  apply parseIndexLoop_cons_arity
  rw [length_stringsSplit]
  omega

/-- Witness of C10: the payload `53535` (no colon), and the payload
`1:2 5:6:7 53535:"x"` (a token with two colons reached after `1:2`). -/
theorem parseIndex_colon_arity_witness :
    (32 ∉ ascii "53535" ∧ (ascii "53535").count 58 ≠ 1) ∧
    parseIndex (ascii "53535") = ([], false, some (.incorrectOption (ascii "53535"))) ∧
    parseIndex (ascii "1:2 5:6:7 53535:\"x\"") =
      ([], false, some (.incorrectOption (ascii "5:6:7"))) :=
  ⟨⟨by decide, by decide⟩,
    parseIndex_colon_arity [] (ascii "53535") [] (by simp) (by decide) (by decide),
    parseIndex_colon_arity [ascii "1:2"] (ascii "5:6:7") [ascii "53535:\"x\""] (by decide)
      (by decide) (by decide)⟩

/-! ## The walk of `generateCode` -/

/-- In the loop of `parseIndex`, `found = true` comes with a nil error. -/
theorem parseIndexLoop_found (toks : List Bytes) :
    (parseIndexLoop toks).2.1 = true → (parseIndexLoop toks).2.2 = none := by
  induction toks with
  | nil => simp [parseIndexLoop]
  | cons t ts ih =>
    unfold parseIndexLoop
    split
    · split
      · simp
      · split
        · split <;> simp
        · exact ih
    · simp

theorem parseIndex_found (options : Bytes) :
    (parseIndex options).2.1 = true → (parseIndex options).2.2 = none :=
  parseIndexLoop_found _

/-- A message that is processed without error extends the buffer by its
block. -/
theorem visitMessage_of_passes (buf : Bytes) (message : DescriptorProto)
    (h : messagePasses message = true) :
    visitMessage buf message = .next (buf ++ messageBlock message) := by
  unfold messagePasses at h
  unfold visitMessage messageBlock
  cases hopt : message.options with
  | none => simp
  | some options =>
    rw [hopt] at h
    have herr : (parseIndex options).2.2 = none := by simpa using h
    rcases hp : parseIndex options with ⟨indexName, found, err⟩
    rw [hp] at herr
    simp only at herr
    subst herr
    cases found <;> simp [writeMethods, block, hp]

/-- A message whose options payload fails to parse stops the walk with the
error of `parseIndex`. -/
theorem visitMessage_of_error (buf : Bytes) (message : DescriptorProto)
    (options : Bytes) (e : GoError) (hopt : message.options = some options)
    (herr : (parseIndex options).2.2 = some e) :
    visitMessage buf message = .fail e := by
  unfold visitMessage
  rcases hp : parseIndex options with ⟨indexName, found, err⟩
  rw [hp] at herr
  simp only at herr
  subst herr
  simp [hopt, hp]

/-- The walk goes on after a message only if the message is processed without
error. -/
theorem messagePasses_of_next (buf buf1 : Bytes) (message : DescriptorProto)
    (h : visitMessage buf message = .next buf1) : messagePasses message = true := by
  unfold messagePasses
  cases hopt : message.options with
  | none => rfl
  | some options =>
    cases herr : (parseIndex options).2.2 with
    | none => simp [herr]
    | some e =>
      rw [visitMessage_of_error buf message options e hopt herr] at h
      cases h

/-- The loop body in terms of the message path and the message lookup. -/
theorem visitLocation_eq (protofile : FileDescriptorProto) (buf : Bytes)
    (location : Location) :
    visitLocation protofile buf location =
      match messageIndex location with
      | none => .next buf
      | some _ =>
        match messageOf protofile location with
        | none => .panic
        | some message => visitMessage buf message := by
  unfold visitLocation messageOf messageAt messageIndex
  split
  · rename_i first second hpath
    by_cases h4 : first = 4
    · by_cases hneg : second < 0
      · simp [h4, hneg]
      · simp only [h4, hneg, if_true, if_false]
    · simp [h4]
  · rfl

/-- An entry that is processed successfully extends the buffer by its
block. -/
theorem visitLocation_of_passes (protofile : FileDescriptorProto) (buf : Bytes)
    (location : Location) (h : locationPasses protofile location = true) :
    visitLocation protofile buf location =
      .next (buf ++ locationBlock protofile location) := by
  rw [visitLocation_eq]
  unfold locationPasses at h
  unfold locationBlock
  cases hidx : messageIndex location with
  | none => simp [messageOf, hidx]
  | some i =>
    rw [hidx] at h
    cases hmsg : messageOf protofile location with
    | none => simp [hmsg] at h
    | some message =>
      rw [hmsg] at h
      exact visitMessage_of_passes buf message h

/-- The walk goes on after an entry only if the entry is processed
successfully. -/
theorem locationPasses_of_next (protofile : FileDescriptorProto) (buf buf1 : Bytes)
    (location : Location) (h : visitLocation protofile buf location = .next buf1) :
    locationPasses protofile location = true := by
  rw [visitLocation_eq] at h
  unfold locationPasses
  cases hidx : messageIndex location with
  | none => rfl
  | some i =>
    rw [hidx] at h
    cases hmsg : messageOf protofile location with
    | none => simp [hmsg] at h
    | some message =>
      rw [hmsg] at h
      exact messagePasses_of_next buf buf1 message h

/-- A table whose entries are all processed successfully extends the buffer by
the blocks of its entries, in table order. -/
theorem visitLocations_of_passes (protofile : FileDescriptorProto)
    (locations : List Location) (buf : Bytes)
    (h : ∀ location ∈ locations, locationPasses protofile location = true) :
    visitLocations protofile buf locations =
      .next (buf ++ (locations.map (locationBlock protofile)).flatten) := by
  induction locations generalizing buf with
  | nil => simp [visitLocations]
  | cons location locations ih =>
    rw [visitLocations, visitLocation_of_passes protofile buf location (h location (by simp))]
    simp only
    rw [ih _ (fun l hl => h l (by simp [hl]))]
    simp

/-- The inner loop ends normally only if every entry is processed
successfully. -/
theorem locationPasses_of_visitLocations (protofile : FileDescriptorProto)
    (locations : List Location) (buf buf1 : Bytes)
    (h : visitLocations protofile buf locations = .next buf1) :
    ∀ location ∈ locations, locationPasses protofile location = true := by
  induction locations generalizing buf with
  | nil => simp
  | cons location locations ih =>
    rw [visitLocations] at h
    cases hstep : visitLocation protofile buf location with
    | next buf2 =>
      rw [hstep] at h
      intro l hl
      rcases List.mem_cons.mp hl with rfl | hl
      · exact locationPasses_of_next protofile buf buf2 l hstep
      · exact ih buf2 h l hl
    | fail e => rw [hstep] at h; cases h
    | panic => rw [hstep] at h; cases h

/-- Files whose entries are all processed successfully extend the buffer by
their blocks, in file order. -/
theorem visitFiles_of_passes (protofiles : List FileDescriptorProto) (buf : Bytes)
    (h : ∀ protofile ∈ protofiles, ∀ location ∈ protofile.location,
      locationPasses protofile location = true) :
    visitFiles buf protofiles = .next (buf ++ (protofiles.map fileBlocks).flatten) := by
  induction protofiles generalizing buf with
  | nil => simp [visitFiles]
  | cons protofile protofiles ih =>
    rw [visitFiles, visitLocations_of_passes protofile _ buf (h protofile (by simp))]
    simp only
    rw [ih _ (fun p hp => h p (by simp [hp]))]
    simp [fileBlocks]

/-- The outer loop ends normally only if every entry of every file is
processed successfully. -/
theorem locationPasses_of_visitFiles (protofiles : List FileDescriptorProto)
    (buf buf1 : Bytes) (h : visitFiles buf protofiles = .next buf1) :
    ∀ protofile ∈ protofiles, ∀ location ∈ protofile.location,
      locationPasses protofile location = true := by
  induction protofiles generalizing buf with
  | nil => simp
  | cons protofile protofiles ih =>
    rw [visitFiles] at h
    cases hstep : visitLocations protofile buf protofile.location with
    | next buf2 =>
      rw [hstep] at h
      intro p hp
      rcases List.mem_cons.mp hp with rfl | hp
      · exact locationPasses_of_visitLocations p _ buf buf2 hstep
      · exact ih buf2 h p hp
    | fail e => rw [hstep] at h; cases h
    | panic => rw [hstep] at h; cases h

/-- A successful call appends the artifact whose content is the header
followed by the blocks of the location entries. -/
theorem generateCode_of_passes (req : CodeGeneratorRequest) (res : CodeGeneratorResponse)
    (h : ∀ protofile ∈ req.protoFile, ∀ location ∈ protofile.location,
      locationPasses protofile location = true) :
    generateCode req res =
      .returned none
        { file := res.file ++ [artifact (header ++ (req.protoFile.map fileBlocks).flatten)] } := by
  unfold generateCode
  simp only
  rw [show headerTemplate (ascii "titi") (ascii "toto") (ascii "tata") = header from rfl,
    visitFiles_of_passes req.protoFile header h]
  rfl

/-- A call returns without error only if every entry is processed
successfully. -/
theorem locationPasses_of_generateCode (req : CodeGeneratorRequest)
    (res res1 : CodeGeneratorResponse) (h : generateCode req res = .returned none res1) :
    ∀ protofile ∈ req.protoFile, ∀ location ∈ protofile.location,
      locationPasses protofile location = true := by
  unfold generateCode at h
  simp only at h
  cases hwalk : visitFiles (headerTemplate (ascii "titi") (ascii "toto") (ascii "tata"))
      req.protoFile with
  | next content => exact locationPasses_of_visitFiles _ _ content hwalk
  | fail e => rw [hwalk] at h; simp at h
  | panic => rw [hwalk] at h; simp at h

/-! ## Evaluation of the walk on explicit payloads -/

theorem parseIndex_creator :
    parseIndex (ascii "53535:\"creator\"") = (ascii "creator", true, none) := by decide

theorem parseIndex_x : parseIndex (ascii "53535:\"x\"") = (ascii "x", true, none) := by
  decide

theorem parseIndex_y : parseIndex (ascii "53535:\"y\"") = (ascii "y", true, none) := by
  decide

theorem parseIndex_seven : parseIndex (ascii "7:1") = ([], false, none) := by decide

theorem parseIndex_abc :
    parseIndex (ascii "abc") = ([], false, some (.incorrectOption (ascii "abc"))) := by
  decide

theorem parseIndex_deprecated :
    parseIndex (ascii "deprecated:true") =
      ([], false, some (.numError (ascii "deprecated") .syntaxErr)) := by
  decide

theorem generateCode_reqPost :
    generateCode reqPost resOne =
      .returned none
        { file := resOne.file ++ [artifact (header ++ block (ascii "Post") (ascii "creator"))] } := by
  simp [generateCode, reqPost, visitFiles, visitLocations, visitLocation, visitMessage,
    parseIndex_creator, writeMethods, artifact, header, block]

theorem generateCode_reqABC :
    generateCode reqABC { file := [] } =
      .returned none
        { file := [artifact (header ++ block (ascii "A") (ascii "x") ++
            block (ascii "C") (ascii "y"))] } := by
  simp [generateCode, reqABC, visitFiles, visitLocations, visitLocation, visitMessage,
    parseIndex_x, parseIndex_y, parseIndex_seven, writeMethods, artifact, header, block]

theorem generateCode_reqReversed :
    generateCode reqReversed { file := [] } =
      .returned none
        { file := [artifact (header ++ block (ascii "C") (ascii "y") ++
            block (ascii "A") (ascii "x"))] } := by
  simp [generateCode, reqReversed, visitFiles, visitLocations, visitLocation, visitMessage,
    parseIndex_x, parseIndex_y, writeMethods, artifact, header, block]

theorem declarationOrderContent_reqReversed :
    declarationOrderContent reqReversed =
      header ++ block (ascii "A") (ascii "x") ++ block (ascii "C") (ascii "y") := by
  simp [declarationOrderContent, reqReversed, messageBlock, parseIndex_x, parseIndex_y]

theorem ascii_A : ascii "A" = [65] := by decide

theorem ascii_C : ascii "C" = [67] := by decide

/-- The blocks of `C` and `A` in table order differ from the blocks in
declaration order. -/
theorem reversed_ne :
    header ++ block (ascii "C") (ascii "y") ++ block (ascii "A") (ascii "x") ≠
      declarationOrderContent reqReversed := by
  rw [declarationOrderContent_reqReversed]
  intro h
  simp [block, getKeyTemplate, ascii_A, ascii_C] at h

/-! ## The location table seen through its message paths -/

theorem locationBlock_eq (protofile : FileDescriptorProto) (location : Location) :
    locationBlock protofile location =
      match messageIndex location with
      | none => []
      | some i => indexBlock protofile i := by
  unfold locationBlock messageOf indexBlock
  cases messageIndex location <;> rfl

/-- Only the message paths of a table contribute text. -/
theorem flatten_locationBlock (protofile : FileDescriptorProto) (locations : List Location) :
    (locations.map (locationBlock protofile)).flatten =
      ((locations.filterMap messageIndex).map (indexBlock protofile)).flatten := by
  induction locations with
  | nil => rfl
  | cons location locations ih =>
    rw [List.map_cons, List.flatten_cons, ih, locationBlock_eq]
    cases hidx : messageIndex location with
    | none => simp [List.filterMap_cons, hidx]
    | some i => simp [List.filterMap_cons, hidx]

/-- The blocks of the indices `0, ..., n-1` are the blocks of the messages in
declaration order. -/
theorem map_indexBlock_range (protofile : FileDescriptorProto) :
    ((List.range protofile.messageType.length).map Int.ofNat).map
        (indexBlock protofile) =
      protofile.messageType.map messageBlock := by
  apply List.ext_getElem
  · simp
  · intro i h1 h2
    have hi : i < protofile.messageType.length := by simpa using h2
    have hneg : ¬ ((i : Int) < 0) := by omega
    simp [indexBlock, messageAt, List.getElem?_eq_getElem hi, hneg]

/-- A file whose table lists its messages in declaration order contributes the
blocks of its messages in declaration order. -/
theorem fileBlocks_of_declarationOrder (protofile : FileDescriptorProto)
    (h : locationsInDeclarationOrder protofile = true) :
    fileBlocks protofile = (protofile.messageType.map messageBlock).flatten := by
  have htable : protofile.location.filterMap messageIndex =
      (List.range protofile.messageType.length).map Int.ofNat := by
    simpa [locationsInDeclarationOrder] using h
  rw [fileBlocks, flatten_locationBlock, htable, map_indexBlock_range]

/-- An entry that yields no block is processed successfully and contributes
nothing. -/
theorem locationUnannotated_spec (protofile : FileDescriptorProto) (location : Location)
    (h : locationUnannotated protofile location = true) :
    locationPasses protofile location = true ∧ locationBlock protofile location = [] := by
  unfold locationUnannotated at h
  unfold locationPasses locationBlock
  cases hidx : messageIndex location with
  | none => simp [messageOf, hidx]
  | some i =>
    rw [hidx] at h
    cases hmsg : messageOf protofile location with
    | none => simp [hmsg] at h
    | some message =>
      cases hopt : message.options with
      | none => simp [messagePasses, messageBlock, hopt]
      | some options =>
        have hp : parseIndex options = ([], false, none) := by simpa [hmsg, hopt] using h
        simp [messagePasses, messageBlock, hopt, hp]

/-- The walk of one table up to the first entry whose message fails to parse:
the entries before it are processed successfully, and the walk stops there
with the error of `parseIndex`. -/
theorem visitLocations_of_error (protofile : FileDescriptorProto)
    (before after : List Location) (location : Location) (message : DescriptorProto)
    (options : Bytes) (e : GoError) (buf : Bytes)
    (hbefore : ∀ l ∈ before, locationPasses protofile l = true)
    (hmsg : messageOf protofile location = some message)
    (hopt : message.options = some options)
    (herr : (parseIndex options).2.2 = some e) :
    visitLocations protofile buf (before ++ location :: after) = .fail e := by
  induction before generalizing buf with
  | nil =>
    have hidx : ∃ i, messageIndex location = some i := by
      unfold messageOf at hmsg
      cases h : messageIndex location with
      | none => simp [h] at hmsg
      | some i => exact ⟨i, rfl⟩
    obtain ⟨i, hi⟩ := hidx
    rw [List.nil_append, visitLocations, visitLocation_eq, hi]
    simp only [hmsg]
    rw [visitMessage_of_error buf message options e hopt herr]
  | cons l before ih =>
    rw [List.cons_append, visitLocations,
      visitLocation_of_passes protofile buf l (hbefore l (by simp))]
    exact ih _ (fun l1 hl1 => hbefore l1 (by simp [hl1]))

/-- The walk over the files up to the first file in which `visitLocations`
stops with an error. -/
theorem visitFiles_of_error (before after : List FileDescriptorProto)
    (protofile : FileDescriptorProto) (e : GoError) (buf : Bytes)
    (hbefore : ∀ g ∈ before, ∀ l ∈ g.location, locationPasses g l = true)
    (hfile : ∀ buf1, visitLocations protofile buf1 protofile.location = .fail e) :
    visitFiles buf (before ++ protofile :: after) = .fail e := by
  induction before generalizing buf with
  | nil => rw [List.nil_append, visitFiles, hfile]
  | cons g before ih =>
    rw [List.cons_append, visitFiles, visitLocations_of_passes g _ buf (hbefore g (by simp))]
    exact ih _ (fun g1 hg1 => hbefore g1 (by simp [hg1]))

/-! ## The claims about `generateCode` -/

/-- C4: end-to-end block shape.  For a request of one file with a single
message named `T` whose options payload parses to `(I, true, nil)` and whose
location table contains the single message path `[4, 0]`, `generateCode`
succeeds and the artifact content is the header followed by exactly the
key-builder, decoder, encoder, getter and setter fragments of `T`, in that
order, the setter with the index `I`. -/
theorem generateCode_single_message (T options I : Bytes) (locations : List Location)
    (res : CodeGeneratorResponse)
    (hparse : parseIndex options = (I, true, none))
    (hloc : locations.filterMap messageIndex = [0]) :
    generateCode
        { protoFile := [{ messageType := [{ name := T, options := some options }],
                          location := locations }] } res =
      .returned none
        { file := res.file ++ [{
            name := some (ascii "keeper.pb.go"),
            content := some (headerTemplate (ascii "titi") (ascii "toto") (ascii "tata") ++
              getKeyTemplate T ++ unmarschalTemplate T ++ marschalTemplate T ++
              getFunctionTemplate T ++ setFunctionTemplate T I) }] } := by
  have hpass : ∀ protofile ∈ [FileDescriptorProto.mk [DescriptorProto.mk T (some options)]
      locations], ∀ location ∈ protofile.location,
      locationPasses protofile location = true := by
    intro protofile hmem location hl
    rw [List.mem_singleton] at hmem
    subst hmem
    unfold locationPasses
    cases hidx : messageIndex location with
    | none => rfl
    | some i =>
      have hi : i ∈ locations.filterMap messageIndex :=
        List.mem_filterMap.mpr ⟨location, hl, hidx⟩
      rw [hloc, List.mem_singleton] at hi
      subst hi
      simp [messageOf, hidx, messageAt, messagePasses, hparse]
  rw [generateCode_of_passes _ res hpass]
  simp [fileBlocks, flatten_locationBlock, hloc, indexBlock, messageAt, messageBlock, hparse,
    artifact, header, block]

/-- Witness of C4: the message `Post` with the payload `53535:"creator"`. -/
theorem generateCode_single_message_witness :
    (parseIndex (ascii "53535:\"creator\"") = (ascii "creator", true, none) ∧
      [Location.mk [], ⟨[2]⟩, ⟨[4, 0]⟩, ⟨[4, 0, 1]⟩, ⟨[4, 0, 2, 0]⟩].filterMap messageIndex
        = [0]) ∧
    generateCode reqPost resOne =
      .returned none
        { file := resOne.file ++ [{
            name := some (ascii "keeper.pb.go"),
            content := some (headerTemplate (ascii "titi") (ascii "toto") (ascii "tata") ++
              getKeyTemplate (ascii "Post") ++ unmarschalTemplate (ascii "Post") ++
              marschalTemplate (ascii "Post") ++ getFunctionTemplate (ascii "Post") ++
              setFunctionTemplate (ascii "Post") (ascii "creator")) }] } :=
  ⟨⟨by decide, by decide⟩,
    generateCode_single_message (ascii "Post") (ascii "53535:\"creator\"") (ascii "creator")
      [⟨[]⟩, ⟨[2]⟩, ⟨[4, 0]⟩, ⟨[4, 0, 1]⟩, ⟨[4, 0, 2, 0]⟩] resOne (by decide) (by decide)⟩

/-- C5, as stated, fails: with a location table that lists the second message
before the first, `generateCode` succeeds and writes the block of `C` before
the block of `A`, which is not the content in declaration order. -/
theorem generateCode_reversed_table :
    generateCode reqReversed { file := [] } =
      .returned none
        { file := [artifact (header ++ block (ascii "C") (ascii "y") ++
            block (ascii "A") (ascii "x"))] } ∧
    header ++ block (ascii "C") (ascii "y") ++ block (ascii "A") (ascii "x") ≠
      declarationOrderContent reqReversed :=
  ⟨generateCode_reqReversed, reversed_ne⟩

/-- C5, amended: for every request on which `generateCode` succeeds and in
which the location table of every file lists the messages of the file in
declaration order, each once, the artifact content is the header followed by
one block per annotated message, in file order and then declaration order,
with no block for the other messages. -/
theorem generateCode_declaration_order (req : CodeGeneratorRequest)
    (res res1 : CodeGeneratorResponse)
    (hok : generateCode req res = .returned none res1)
    (htable : ∀ protofile ∈ req.protoFile, locationsInDeclarationOrder protofile = true) :
    res1.file = res.file ++ [artifact (declarationOrderContent req)] := by
  have hpass := locationPasses_of_generateCode req res res1 hok
  rw [generateCode_of_passes req res hpass] at hok
  have hres : res1 = { file := res.file ++
      [artifact (header ++ (req.protoFile.map fileBlocks).flatten)] } := by
    injection hok with _ h
    exact h.symm
  have hmap : req.protoFile.map fileBlocks =
      req.protoFile.map (fun protofile => (protofile.messageType.map messageBlock).flatten) :=
    List.map_congr_left (fun protofile hp =>
      fileBlocks_of_declarationOrder protofile (htable protofile hp))
  rw [hres, hmap, declarationOrderContent]

/-- Witness of C5, amended: the file declaring `A` (annotated), `B` (not
annotated), `C` (annotated) gives the header, the block of `A` and the block
of `C`. -/
theorem generateCode_declaration_order_witness :
    (generateCode reqABC { file := [] } =
        .returned none
          { file := [artifact (header ++ block (ascii "A") (ascii "x") ++
              block (ascii "C") (ascii "y"))] } ∧
      ∀ protofile ∈ reqABC.protoFile, locationsInDeclarationOrder protofile = true) ∧
    [artifact (header ++ block (ascii "A") (ascii "x") ++ block (ascii "C") (ascii "y"))] =
      [] ++ [artifact (declarationOrderContent reqABC)] :=
  ⟨⟨generateCode_reqABC, by decide⟩,
    generateCode_declaration_order reqABC { file := [] } _ generateCode_reqABC (by decide)⟩

theorem generateCode_reqDeprecated :
    generateCode reqDeprecated { file := [] } =
      .returned (some (.numError (ascii "deprecated") .syntaxErr)) { file := [] } := by
  simp [generateCode, reqDeprecated, visitFiles, visitLocations, visitLocation, visitMessage,
    parseIndex_deprecated]

/-- C6, as stated, fails: the message `M` carries the option `deprecated:true`
and no token with field number 53535, yet `generateCode` returns the error of
`strconv.Atoi` and produces no artifact. -/
theorem generateCode_deprecated_option :
    zeroAnnotated reqDeprecated = true ∧
    generateCode reqDeprecated { file := [] } =
      .returned (some (.numError (ascii "deprecated") .syntaxErr)) { file := [] } :=
  ⟨by decide, generateCode_reqDeprecated⟩

/-- C6, amended: for every request in which every message path of every
location table indexes into the message list of its file, and the message it
declares has no options or an options payload on which `parseIndex` returns
`("", false, nil)`, `generateCode` succeeds and produces a single artifact
whose content is the header exactly. -/
theorem generateCode_header_only (req : CodeGeneratorRequest) (res : CodeGeneratorResponse)
    (h : ∀ protofile ∈ req.protoFile, ∀ location ∈ protofile.location,
      locationUnannotated protofile location = true) :
    generateCode req res =
      .returned none
        { file := res.file ++ [{
            name := some (ascii "keeper.pb.go"),
            content := some (headerTemplate (ascii "titi") (ascii "toto") (ascii "tata")) }] } := by
  rw [generateCode_of_passes req res
    (fun protofile hp location hl => (locationUnannotated_spec protofile location
      (h protofile hp location hl)).1)]
  have hnil : (req.protoFile.map fileBlocks).flatten = [] := by
    rw [List.flatten_eq_nil_iff]
    intro l hl
    obtain ⟨protofile, hp, rfl⟩ := List.mem_map.mp hl
    rw [fileBlocks, List.flatten_eq_nil_iff]
    intro l1 hl1
    obtain ⟨location, hloc, rfl⟩ := List.mem_map.mp hl1
    exact (locationUnannotated_spec protofile location (h protofile hp location hloc)).2
  rw [hnil, List.append_nil]
  rfl

/-- Witness of C6, amended: the file declaring `M` without options and `N`
with the options `7:1`. -/
theorem generateCode_header_only_witness :
    (∀ protofile ∈ reqPlain.protoFile, ∀ location ∈ protofile.location,
      locationUnannotated protofile location = true) ∧
    generateCode reqPlain resOne =
      .returned none
        { file := resOne.file ++ [{
            name := some (ascii "keeper.pb.go"),
            content := some (headerTemplate (ascii "titi") (ascii "toto") (ascii "tata")) }] } :=
  ⟨by decide, generateCode_header_only reqPlain resOne (by decide)⟩

/-- C7: whenever `generateCode` returns without error, the file list of the
response is the previous file list with exactly one file appended; the name of
that file is `keeper.pb.go` and its content begins with the header. -/
theorem generateCode_one_artifact (req : CodeGeneratorRequest)
    (res res1 : CodeGeneratorResponse)
    (hok : generateCode req res = .returned none res1) :
    ∃ content : Bytes,
      res1.file = res.file ++ [{ name := some (ascii "keeper.pb.go"), content := some content }] ∧
      headerTemplate (ascii "titi") (ascii "toto") (ascii "tata") <+: content := by
  have hpass := locationPasses_of_generateCode req res res1 hok
  rw [generateCode_of_passes req res hpass] at hok
  have hres : res1 = { file := res.file ++
      [artifact (header ++ (req.protoFile.map fileBlocks).flatten)] } := by
    injection hok with _ h
    exact h.symm
  refine ⟨header ++ (req.protoFile.map fileBlocks).flatten, ?_, ?_⟩
  · rw [hres]
    rfl
  · exact List.prefix_append _ _

/-- Witness of C7: the request `reqPost` and a response that already holds one
file. -/
theorem generateCode_one_artifact_witness :
    generateCode reqPost resOne =
      .returned none
        { file := resOne.file ++ [artifact (header ++ block (ascii "Post") (ascii "creator"))] } ∧
    ∃ content : Bytes,
      resOne.file ++ [artifact (header ++ block (ascii "Post") (ascii "creator"))] =
        resOne.file ++ [{ name := some (ascii "keeper.pb.go"), content := some content }] ∧
      headerTemplate (ascii "titi") (ascii "toto") (ascii "tata") <+: content :=
  ⟨generateCode_reqPost, generateCode_one_artifact reqPost resOne _ generateCode_reqPost⟩

/-- C8: no partial artifact on error.  If the walk reaches a message whose
options payload makes `parseIndex` return an error (every entry before it, in
the earlier files and earlier in its own table, is processed successfully),
`generateCode` returns that same error and leaves the file list of the
response unchanged. -/
theorem generateCode_error_no_artifact (req : CodeGeneratorRequest)
    (res : CodeGeneratorResponse) (filesBefore filesAfter : List FileDescriptorProto)
    (protofile : FileDescriptorProto) (before after : List Location) (location : Location)
    (message : DescriptorProto) (options : Bytes) (e : GoError)
    (hfiles : req.protoFile = filesBefore ++ protofile :: filesAfter)
    (htable : protofile.location = before ++ location :: after)
    (hfilesBefore : ∀ g ∈ filesBefore, ∀ l ∈ g.location, locationPasses g l = true)
    (hbefore : ∀ l ∈ before, locationPasses protofile l = true)
    (hmsg : messageOf protofile location = some message)
    (hopt : message.options = some options)
    (herr : (parseIndex options).2.2 = some e) :
    generateCode req res = .returned (some e) res := by
  have hfile : ∀ buf1, visitLocations protofile buf1 protofile.location = .fail e := by
    intro buf1
    rw [htable]
    exact visitLocations_of_error protofile before after location message options e buf1
      hbefore hmsg hopt herr
  unfold generateCode
  simp only
  rw [hfiles, visitFiles_of_error filesBefore filesAfter protofile e _ hfilesBefore hfile]

/-- Witness of C8: the block of `A` is already in the buffer when the payload
`abc` of `B` fails to parse; the response keeps its one file. -/
theorem generateCode_error_no_artifact_witness :
    (messagePasses { name := ascii "A", options := some (ascii "53535:\"x\"") } = true ∧
      (parseIndex (ascii "abc")).2.2 = some (.incorrectOption (ascii "abc"))) ∧
    generateCode reqIllFormed resOne =
      .returned (some (.incorrectOption (ascii "abc"))) resOne :=
  ⟨⟨by decide, by decide⟩,
    generateCode_error_no_artifact reqIllFormed resOne [] []
      { messageType := [
          { name := ascii "A", options := some (ascii "53535:\"x\"") },
          { name := ascii "B", options := some (ascii "abc") }],
        location := [⟨[4, 0]⟩, ⟨[4, 1]⟩] }
      [⟨[4, 0]⟩] [] ⟨[4, 1]⟩ { name := ascii "B", options := some (ascii "abc") }
      (ascii "abc") (.incorrectOption (ascii "abc")) rfl rfl (by simp) (by decide) (by decide)
      rfl (by decide)⟩

/-! ## Further claims about `parseIndex` -/

/-- A token whose field part `strconv.Atoi` rejects ends the loop with the
error of `strconv.Atoi`. -/
theorem parseIndexLoop_cons_field_error (t field indexValue : Bytes) (rest : List Bytes)
    (err : GoError) (h : stringsSplit t 58 = [field, indexValue])
    (herr : Atoi field = .error err) :
    parseIndexLoop (t :: rest) = ([], false, some err) := by
  rw [parseIndexLoop_cons_pair t field indexValue rest h, herr]

/-- A token made of a field part that reads as an integer other than 53535, a
colon and a value without colon or space is a well-formed token with another
field number. -/
theorem otherFieldToken_of_parts (field v : Bytes) (n : Int) (hfield : Atoi field = .ok n)
    (hn : n ≠ indexFieldNumber) (hcol : 58 ∉ v) (hsp : 32 ∉ v) :
    otherFieldToken (field ++ 58 :: v) = true := by
  have hf58 : 58 ∉ field := Atoi_ok_no_colon field n hfield
  have hf32 : 32 ∉ field := Atoi_ok_no_space field n hfield
  have hsplit : stringsSplit (field ++ 58 :: v) 58 = [field, v] := by
    rw [stringsSplit_append_sep _ _ _ hf58, stringsSplit_of_not_mem v 58 hcol]
  have hcount : (field ++ 58 :: v).count 58 = 1 := by
    have hlen := length_stringsSplit (field ++ 58 :: v) 58
    rw [hsplit, List.length_cons, List.length_cons, List.length_nil] at hlen
    omega
  have htake : (field ++ 58 :: v).takeWhile (fun c => c != 58) = field := by
    have := stringsSplit_of_count_eq_one _ 58 hcount
    rw [hsplit] at this
    simp only [List.cons.injEq] at this
    exact this.1.symm
  simp only [otherFieldToken, Bool.and_eq_true, beq_iff_eq, htake, hfield]
  refine ⟨⟨?_, hcount⟩, by simpa using hn⟩
  simp [hf32, hsp]

/-- C11: when the scan reaches a token with exactly one colon whose field
part is not a decimal integer, that is, `strconv.Atoi` rejects it (every
earlier token is well formed with a field number other than 53535),
`parseIndex` returns the error of `strconv.Atoi`, with `found = false`. -/
theorem parseIndex_field_not_integer (P : List Bytes) (t : Bytes) (R : List Bytes)
    (err : GoError) (hP : ∀ p ∈ P, otherFieldToken p = true) (hsp : 32 ∉ t)
    (hcolon : t.count 58 = 1) (herr : Atoi (fieldPart t) = .error err) :
    parseIndex (stringsJoin (P ++ t :: R) 32) = ([], false, some err) := by
  obtain ⟨rest, hrest⟩ := parseIndex_stringsJoin_append P t R hP hsp
  rw [hrest]
  exact parseIndexLoop_cons_field_error t _ _ rest err
    (stringsSplit_of_count_eq_one t 58 hcolon) herr

/-- Witness of C11: the payload `abc:"x"`, and the payload `1:2 :"x"` whose
second token has an empty field part. -/
theorem parseIndex_field_not_integer_witness :
    (32 ∉ ascii "abc:\"x\"" ∧ (ascii "abc:\"x\"").count 58 = 1 ∧
      Atoi (fieldPart (ascii "abc:\"x\"")) = .error (.numError (ascii "abc") .syntaxErr)) ∧
    parseIndex (ascii "abc:\"x\"") = ([], false, some (.numError (ascii "abc") .syntaxErr)) ∧
    parseIndex (ascii "1:2 :\"x\"") = ([], false, some (.numError [] .syntaxErr)) :=
  ⟨⟨by decide, by decide, rfl⟩,
    parseIndex_field_not_integer [] (ascii "abc:\"x\"") [] _ (by simp) (by decide)
      (by decide) rfl,
    parseIndex_field_not_integer [ascii "1:2"] (ascii ":\"x\"") [] _ (by decide) (by decide)
      (by decide) rfl⟩

/-- C12: the code breaks the claim.  The comment of the slice says "Remove
quote", but no test looks at the bytes that are removed: the value `abc` of
the payload `53535:abc` and the value `123` of the payload `53535:123` are
not wrapped in quote characters, and `parseIndex` returns the indices `b` and
`2` with `found = true` and no error. -/
theorem parseIndex_unquoted_value :
    ((ascii "abc").head? ≠ some 34 ∧ (ascii "abc").getLast? ≠ some 34 ∧
      parseIndex (ascii "53535:abc") = (ascii "b", true, none)) ∧
    ((ascii "123").head? ≠ some 34 ∧ (ascii "123").getLast? ≠ some 34 ∧
      parseIndex (ascii "53535:123") = (ascii "2", true, none)) := by
  decide

/-- C13, as stated, fails: `strconv.Atoi` reads the field part `-1` as the
integer -1, so the token `-1:"x"` is passed over and `parseIndex` returns
`("", false, nil)` without error. -/
theorem parseIndex_minus_one :
    (isDecimalInteger (ascii "-1") = true ∧ decimalValue (ascii "-1") < 0) ∧
    Atoi (ascii "-1") = .ok (-1) ∧ parseIndex (ascii "-1:\"x\"") = ([], false, none) :=
  ⟨by decide, rfl, by decide⟩

/-- C13, amended: for a first token with exactly one colon and a field part
that is a negative integer, `parseIndex` fails exactly when the integer is
below the range of `int`, with the range error of `strconv.Atoi`.  A negative
integer within the range is read as a field number other than 53535 and the
token is passed over: alone it gives `("", false, nil)`, and followed by a
space and further text it gives the result of `parseIndex` on that text. -/
theorem parseIndex_negative_field (field v : Bytes)
    (hint : isDecimalInteger field = true) (hneg : decimalValue field < 0)
    (hcol : 58 ∉ v) (hsp : 32 ∉ v) :
    (inIntRange (decimalValue field) = true →
      parseIndex (field ++ 58 :: v) = ([], false, none) ∧
      ∀ rest : Bytes, parseIndex ((field ++ 58 :: v) ++ 32 :: rest) = parseIndex rest) ∧
    (inIntRange (decimalValue field) = false →
      parseIndex (field ++ 58 :: v) = ([], false, some (.numError field .rangeErr)) ∧
      ∀ rest : Bytes, parseIndex ((field ++ 58 :: v) ++ 32 :: rest) =
        ([], false, some (.numError field .rangeErr))) := by
  have hA := Atoi_of_isDecimalInteger field hint
  have hf58 : 58 ∉ field := isDecimalInteger_no_colon field hint
  have hf32 : 32 ∉ field := isDecimalInteger_no_space field hint
  have ht32 : 32 ∉ field ++ 58 :: v := by simp [hf32, hsp]
  have hsplit : stringsSplit (field ++ 58 :: v) 58 = [field, v] := by
    rw [stringsSplit_append_sep _ _ _ hf58, stringsSplit_of_not_mem v 58 hcol]
  constructor
  · intro hin
    rw [if_pos hin] at hA
    have hn : decimalValue field ≠ indexFieldNumber := by
      unfold indexFieldNumber
      omega
    have hother := otherFieldToken_of_parts field v _ hA hn hcol hsp
    constructor
    · rw [parseIndex, stringsSplit_of_not_mem _ 32 ht32, parseIndexLoop_cons_other _ _ hother,
        parseIndexLoop]
    · intro rest
      rw [parseIndex, stringsSplit_append_sep _ _ _ ht32,
        parseIndexLoop_cons_other _ _ hother, parseIndex]
  · intro hout
    rw [if_neg (by simp [hout])] at hA
    constructor
    · rw [parseIndex, stringsSplit_of_not_mem _ 32 ht32]
      exact parseIndexLoop_cons_field_error _ field v [] _ hsplit hA
    · intro rest
      rw [parseIndex, stringsSplit_append_sep _ _ _ ht32]
      exact parseIndexLoop_cons_field_error _ field v _ _ hsplit hA

/-- Witness of C13, amended: the payload `-1:"x"` is passed over, the payload
`-9223372036854775809:x` fails with the range error. -/
theorem parseIndex_negative_field_witness :
    (isDecimalInteger (ascii "-1") = true ∧ decimalValue (ascii "-1") < 0 ∧
      58 ∉ ascii "\"x\"" ∧ 32 ∉ ascii "\"x\"" ∧
      inIntRange (decimalValue (ascii "-1")) = true) ∧
    (parseIndex (ascii "-1:\"x\"") = ([], false, none) ∧
      ∀ rest : Bytes, parseIndex (ascii "-1:\"x\"" ++ 32 :: rest) = parseIndex rest) ∧
    parseIndex (ascii "-9223372036854775809:x") =
      ([], false, some (.numError (ascii "-9223372036854775809") .rangeErr)) :=
  ⟨⟨by decide, by decide, by decide, by decide, by decide⟩,
    (parseIndex_negative_field (ascii "-1") (ascii "\"x\"") (by decide) (by decide)
      (by decide) (by decide)).1 (by decide),
    ((parseIndex_negative_field (ascii "-9223372036854775809") (ascii "x") (by decide)
      (by decide) (by decide) (by decide)).2 (by decide)).1⟩

/-- C14, as stated, fails: the token `zz` is ill formed, yet on the payload
`53535:"ab" zz` the scan stops at the first token and `parseIndex` returns the
index `ab` without error. -/
theorem parseIndex_ill_formed_after_match :
    illFormedToken (ascii "zz") = true ∧
    parseIndex (ascii "53535:\"ab\" zz") = (ascii "ab", true, none) := by
  decide

/-- C14, amended: an ill-formed token (one that does not split into exactly
two colon-separated parts, or whose field part is not a valid integer) that
the scan reaches, every earlier token being well formed with a field number
other than 53535, makes `parseIndex` return an error with `found = false`. -/
theorem parseIndex_ill_formed_reached (P : List Bytes) (t : Bytes) (R : List Bytes)
    (hP : ∀ p ∈ P, otherFieldToken p = true) (hsp : 32 ∉ t)
    (hbad : illFormedToken t = true) :
    ∃ err, parseIndex (stringsJoin (P ++ t :: R) 32) = ([], false, some err) := by
  obtain ⟨rest, hrest⟩ := parseIndex_stringsJoin_append P t R hP hsp
  rw [hrest]
  by_cases h2 : (stringsSplit t 58).length = 2
  · have hcount : t.count 58 = 1 := by
      have := length_stringsSplit t 58
      omega
    have hparse : fieldParsable t = false := by
      simpa [illFormedToken, splitsInTwo, h2] using hbad
    cases hA : Atoi (fieldPart t) with
    | ok n => simp [fieldParsable, hA] at hparse
    | error err =>
      exact ⟨err, parseIndexLoop_cons_field_error t _ _ rest err
        (stringsSplit_of_count_eq_one t 58 hcount) hA⟩
  · exact ⟨_, parseIndexLoop_cons_arity t rest h2⟩

/-- Witness of C14, amended: the payload `1:2 zz 53535:"ab"`, where the
ill-formed token `zz` comes before the token with field number 53535. -/
theorem parseIndex_ill_formed_reached_witness :
    ((∀ p ∈ [ascii "1:2"], otherFieldToken p = true) ∧ 32 ∉ ascii "zz" ∧
      illFormedToken (ascii "zz") = true) ∧
    ∃ err, parseIndex (ascii "1:2 zz 53535:\"ab\"") = ([], false, some err) :=
  ⟨⟨by decide, by decide, by decide⟩,
    parseIndex_ill_formed_reached [ascii "1:2"] (ascii "zz") [ascii "53535:\"ab\""]
      (by decide) (by decide) (by decide)⟩

/-- C17, as stated, fails: on the empty payload `parseIndex` does not return
`("", false, nil)`. -/
theorem empty_payload_is_rejected : parseIndex (ascii "") ≠ ([], false, none) := by
  decide

/-- C17, amended: `strings.Split` turns the empty payload into one empty
token; that token has no colon, so `parseIndex` applied to the empty payload
returns `("", false, err)` with the error "incorrect option". -/
theorem parseIndex_empty_payload :
    stringsSplit (ascii "") 32 = [[]] ∧
    parseIndex (ascii "") = ([], false, some (.incorrectOption [])) := by
  decide

/-! ## The exact failure condition and the result shapes -/

/-- The loop returns an error exactly when a scanned token makes the parse
fail. -/
theorem parseIndexLoop_error_iff (toks : List Bytes) :
    (parseIndexLoop toks).2.2 ≠ none ↔ (scannedTokens toks).any tokenFails = true := by
  induction toks with
  | nil => simp [parseIndexLoop, scannedTokens]
  | cons t ts ih =>
    by_cases h2 : (stringsSplit t 58).length = 2
    · have hcount : t.count 58 = 1 := by
        have := length_stringsSplit t 58
        omega
      have hsplit : stringsSplit t 58 = [fieldPart t, valuePart t] :=
        stringsSplit_of_count_eq_one t 58 hcount
      rw [parseIndexLoop_cons_pair t _ _ ts hsplit]
      cases hA : Atoi (fieldPart t) with
      | error err =>
        have hfail : tokenFails t = true := by simp [tokenFails, fieldParsable, hA]
        by_cases hm : isMatchingToken t = true <;> simp [scannedTokens, hm, hfail]
      | ok n =>
        by_cases hn : n = indexFieldNumber
        · have hm : isMatchingToken t = true := by simp [isMatchingToken, hA, hn]
          by_cases hlen : (valuePart t).length < 3 <;>
            simp [scannedTokens, hm, tokenFails, splitsInTwo, h2, fieldParsable, hA, hn, hlen]
        · have hm : isMatchingToken t = false := by simp [isMatchingToken, hA, hn]
          have hfail : tokenFails t = false := by
            simp [tokenFails, splitsInTwo, h2, fieldParsable, hA, hm]
          simp only [hn, if_false]
          rw [ih]
          simp [scannedTokens, hm, hfail]
    · rw [parseIndexLoop_cons_arity t ts h2]
      have hfail : tokenFails t = true := by simp [tokenFails, splitsInTwo, h2]
      by_cases hm : isMatchingToken t = true <;> simp [scannedTokens, hm, hfail]

/-- C18: for every payload string, `parseIndex` returns a non-nil error if and
only if, among the space-separated tokens read in order up to and including
the first token whose field number equals 53535, some token does not split on
`:` into exactly two parts, or has a field part that is not parsable as a
decimal integer, or is the matching token and has a value shorter than three
bytes; otherwise the error is nil. -/
theorem parseIndex_error_iff (optionsStr : Bytes) :
    (parseIndex optionsStr).2.2 ≠ none ↔ failureCondition optionsStr = true :=
  parseIndexLoop_error_iff _

/-- The pieces of a split do not contain the separator. -/
theorem not_mem_of_mem_stringsSplit (s : Bytes) (sep : Nat) :
    ∀ p ∈ stringsSplit s sep, sep ∉ p := by
  induction s with
  | nil => simp [stringsSplit]
  | cons c cs ih =>
    by_cases hc : c = sep
    · subst hc
      intro p hp
      simp only [stringsSplit, if_true, List.mem_cons] at hp
      rcases hp with rfl | hp
      · simp
      · exact ih p hp
    · cases hs : stringsSplit cs sep with
      | nil => exact absurd hs (stringsSplit_ne_nil cs sep)
      | cons piece pieces =>
        rw [hs] at ih
        intro p hp
        simp only [stringsSplit, hc, if_false, hs, List.mem_cons] at hp
        rcases hp with rfl | hp
        · have := ih piece (by simp)
          simp only [List.mem_cons, not_or]
          exact ⟨fun e => hc e.symm, this⟩
        · exact ih p (by simp [hp])

/-- The bytes of a piece of a split are bytes of the string. -/
theorem mem_of_mem_stringsSplit (s : Bytes) (sep : Nat) :
    ∀ p ∈ stringsSplit s sep, ∀ c ∈ p, c ∈ s := by
  induction s with
  | nil => simp [stringsSplit]
  | cons c cs ih =>
    by_cases hc : c = sep
    · subst hc
      intro p hp x hx
      simp only [stringsSplit, if_true, List.mem_cons] at hp
      rcases hp with rfl | hp
      · simp at hx
      · exact List.mem_cons_of_mem _ (ih p hp x hx)
    · cases hs : stringsSplit cs sep with
      | nil => exact absurd hs (stringsSplit_ne_nil cs sep)
      | cons piece pieces =>
        rw [hs] at ih
        intro p hp x hx
        simp only [stringsSplit, hc, if_false, hs, List.mem_cons] at hp
        rcases hp with rfl | hp
        · rcases List.mem_cons.mp hx with rfl | hx
          · simp
          · exact List.mem_cons_of_mem _ (ih piece (by simp) x hx)
        · exact List.mem_cons_of_mem _ (ih p (by simp [hp]) x hx)

/-- The loop over tokens without space returns one of the three shapes. -/
theorem parseIndexLoop_shape (toks : List Bytes) (h : ∀ t ∈ toks, 32 ∉ t) :
    shapeFound (parseIndexLoop toks) ∨ shapeNotFound (parseIndexLoop toks) ∨
      shapeError (parseIndexLoop toks) := by
  induction toks with
  | nil => exact Or.inr (Or.inl ⟨rfl, rfl, rfl⟩)
  | cons t ts ih =>
    by_cases h2 : (stringsSplit t 58).length = 2
    · have hcount : t.count 58 = 1 := by
        have := length_stringsSplit t 58
        omega
      have hsplit : stringsSplit t 58 = [fieldPart t, valuePart t] :=
        stringsSplit_of_count_eq_one t 58 hcount
      have hvmem : valuePart t ∈ stringsSplit t 58 := by simp [hsplit]
      rw [parseIndexLoop_cons_pair t _ _ ts hsplit]
      cases hA : Atoi (fieldPart t) with
      | error err => exact Or.inr (Or.inr ⟨rfl, rfl, by simp⟩)
      | ok n =>
        by_cases hn : n = indexFieldNumber
        · by_cases hlen : (valuePart t).length < 3
          · simp only [hn, if_true, hlen]
            exact Or.inr (Or.inr ⟨rfl, rfl, by simp⟩)
          · simp only [hn, if_true, hlen, if_false]
            left
            have hsub : ∀ c ∈ slice (valuePart t) 1 ((valuePart t).length - 1),
                c ∈ valuePart t := by
              intro c hc
              rw [slice_one_pred] at hc
              exact List.mem_of_mem_tail (List.mem_of_mem_dropLast hc)
            refine ⟨rfl, rfl, ?_, ?_, ?_⟩
            · intro he
              have hl := congrArg List.length he
              rw [slice_one_pred] at hl
              simp at hl
              omega
            · intro hc
              exact h t (by simp) (mem_of_mem_stringsSplit t 58 _ hvmem 32 (hsub 32 hc))
            · intro hc
              exact not_mem_of_mem_stringsSplit t 58 _ hvmem (hsub 58 hc)
        · simp only [hn, if_false]
          exact ih (fun x hx => h x (by simp [hx]))
    · rw [parseIndexLoop_cons_arity t ts h2]
      exact Or.inr (Or.inr ⟨rfl, rfl, by simp⟩)

/-- C20: for every payload string the result of `parseIndex` has exactly one
of three shapes: `(index, true, nil)` with a non-empty index that contains no
space and no colon; `("", false, nil)`; or `("", false, err)` with a non-nil
error.  So `found = true` never comes with an error or an empty index. -/
theorem parseIndex_shape (optionsStr : Bytes) :
    (shapeFound (parseIndex optionsStr) ∧ ¬ shapeNotFound (parseIndex optionsStr) ∧
        ¬ shapeError (parseIndex optionsStr)) ∨
    (¬ shapeFound (parseIndex optionsStr) ∧ shapeNotFound (parseIndex optionsStr) ∧
        ¬ shapeError (parseIndex optionsStr)) ∨
    (¬ shapeFound (parseIndex optionsStr) ∧ ¬ shapeNotFound (parseIndex optionsStr) ∧
        shapeError (parseIndex optionsStr)) := by
  have h := parseIndexLoop_shape (stringsSplit optionsStr 32)
    (not_mem_of_mem_stringsSplit optionsStr 32)
  rw [← parseIndex] at h
  rcases h with h | h | h
  · left
    refine ⟨h, ?_, ?_⟩
    · intro hn
      exact absurd (h.1.symm.trans hn.2.1) (by simp)
    · intro he
      exact absurd (h.1.symm.trans he.2.1) (by simp)
  · right; left
    refine ⟨?_, h, ?_⟩
    · intro hf
      exact absurd (hf.1.symm.trans h.2.1) (by simp)
    · intro he
      exact he.2.2 h.2.2
  · right; right
    refine ⟨?_, ?_, h⟩
    · intro hf
      exact absurd (hf.1.symm.trans h.2.1) (by simp)
    · intro hn
      exact h.2.2 hn.2.2

/-! ## Further claims about `generateCode` -/

/-- The loop body reads a file only through its message list. -/
theorem visitLocation_congr (protofile other : FileDescriptorProto)
    (h : protofile.messageType = other.messageType) (buf : Bytes) (location : Location) :
    visitLocation protofile buf location = visitLocation other buf location := by
  unfold visitLocation
  rw [h]

theorem visitLocations_congr (protofile other : FileDescriptorProto)
    (h : protofile.messageType = other.messageType) (locations : List Location)
    (buf : Bytes) :
    visitLocations protofile buf locations = visitLocations other buf locations := by
  induction locations generalizing buf with
  | nil => rfl
  | cons location locations ih =>
    rw [visitLocations, visitLocations, visitLocation_congr protofile other h]
    cases visitLocation other buf location with
    | next buf1 => exact ih buf1
    | fail e => rfl
    | panic => rfl

/-- An entry that leaves every buffer unchanged can be removed from the
table. -/
theorem visitLocations_remove (protofile : FileDescriptorProto)
    (before after : List Location) (location : Location)
    (hskip : ∀ buf, visitLocation protofile buf location = .next buf) (buf : Bytes) :
    visitLocations protofile buf (before ++ location :: after) =
      visitLocations protofile buf (before ++ after) := by
  induction before generalizing buf with
  | nil => rw [List.nil_append, List.nil_append, visitLocations, hskip]
  | cons l before ih =>
    rw [List.cons_append, List.cons_append, visitLocations, visitLocations]
    cases visitLocation protofile buf l with
    | next buf1 => exact ih buf1
    | fail e => rfl
    | panic => rfl

/-- A file can be replaced by a file on which the inner loop does the same. -/
theorem visitFiles_replace (filesBefore filesAfter : List FileDescriptorProto)
    (protofile other : FileDescriptorProto)
    (h : ∀ buf, visitLocations protofile buf protofile.location =
      visitLocations other buf other.location) (buf : Bytes) :
    visitFiles buf (filesBefore ++ protofile :: filesAfter) =
      visitFiles buf (filesBefore ++ other :: filesAfter) := by
  induction filesBefore generalizing buf with
  | nil => rw [List.nil_append, List.nil_append, visitFiles, visitFiles, h]
  | cons g filesBefore ih =>
    rw [List.cons_append, List.cons_append, visitFiles, visitFiles]
    cases visitLocations g buf g.location with
    | next buf1 => exact ih buf1
    | fail e => rfl
    | panic => rfl

/-- C15: a message without an options payload is skipped and is not an error.
The location entry of such a message leaves the buffer unchanged and lets the
walk go on, and the result of `generateCode` equals its result on the same
request with that entry removed from the location table. -/
theorem generateCode_skip_no_options (res : CodeGeneratorResponse)
    (filesBefore filesAfter : List FileDescriptorProto) (protofile : FileDescriptorProto)
    (before after : List Location) (location : Location) (message : DescriptorProto)
    (htable : protofile.location = before ++ location :: after)
    (hmsg : messageOf protofile location = some message)
    (hopt : message.options = none) :
    (∀ buf, visitLocation protofile buf location = .next buf) ∧
    generateCode { protoFile := filesBefore ++ protofile :: filesAfter } res =
      generateCode
        { protoFile := filesBefore ++
            { protofile with location := before ++ after } :: filesAfter } res := by
  have hskip : ∀ buf, visitLocation protofile buf location = .next buf := by
    intro buf
    have hidx : ∃ i, messageIndex location = some i := by
      unfold messageOf at hmsg
      cases h : messageIndex location with
      | none => simp [h] at hmsg
      | some i => exact ⟨i, rfl⟩
    obtain ⟨i, hi⟩ := hidx
    rw [visitLocation_eq, hi]
    simp only [hmsg]
    simp [visitMessage, hopt]
  refine ⟨hskip, ?_⟩
  have hfile : ∀ buf, visitLocations protofile buf protofile.location =
      visitLocations { protofile with location := before ++ after } buf (before ++ after) := by
    intro buf
    rw [htable, visitLocations_remove protofile before after location hskip buf]
    exact visitLocations_congr protofile { protofile with location := before ++ after } rfl
      (before ++ after) buf
  unfold generateCode
  simp only
  rw [visitFiles_replace filesBefore filesAfter protofile
    { protofile with location := before ++ after } hfile]

/-- Witness of C15: the message `M` of `reqNoOptions` has no options; with or
without its entry `[4,0]` the result is the same. -/
theorem generateCode_skip_no_options_witness :
    (messageOf
        { messageType := [
            { name := ascii "M", options := none },
            { name := ascii "A", options := some (ascii "53535:\"x\"") }],
          location := [⟨[4, 0]⟩, ⟨[4, 1]⟩] } ⟨[4, 0]⟩ =
      some { name := ascii "M", options := none }) ∧
    generateCode reqNoOptions resOne =
      generateCode
        { protoFile := [{
            messageType := [
              { name := ascii "M", options := none },
              { name := ascii "A", options := some (ascii "53535:\"x\"") }],
            location := [⟨[4, 1]⟩] }] } resOne :=
  ⟨by decide,
    (generateCode_skip_no_options resOne [] []
      { messageType := [
          { name := ascii "M", options := none },
          { name := ascii "A", options := some (ascii "53535:\"x\"") }],
        location := [⟨[4, 0]⟩, ⟨[4, 1]⟩] }
      [] [⟨[4, 1]⟩] ⟨[4, 0]⟩ { name := ascii "M", options := none } rfl (by decide) rfl).2⟩

/-- C16: the code does not restrict the walk to entries that index into the
message list.  On a location entry `[4,1]` of a file with one message, and on
a location entry `[4,-1]`, the message lookup is out of range and
`generateCode` stops in a run-time panic. -/
theorem generateCode_out_of_range :
    generateCode reqOutOfRange { file := [] } = .panicked ∧
    generateCode reqNegativeIndex { file := [] } = .panicked := by
  constructor
  · simp [generateCode, reqOutOfRange, visitFiles, visitLocations, visitLocation]
  · simp [generateCode, reqNegativeIndex, visitFiles, visitLocations, visitLocation]

/-- C19: for every request on which no message lookup is out of range and no
call of `parseIndex` fails, `generateCode` succeeds and the artifact content
is the reference content: the header followed by, over the files in request
order and over the entries of each location table in table order, the block
of message `i` for each entry whose path is exactly `[4, i]` and whose message
has options that parse with `found = true`. -/
theorem generateCode_reference_content (req : CodeGeneratorRequest)
    (res : CodeGeneratorResponse)
    (h : ∀ protofile ∈ req.protoFile, ∀ location ∈ protofile.location,
      locationPasses protofile location = true) :
    generateCode req res =
      .returned none { file := res.file ++ [artifact (referenceContent req)] } := by
  rw [generateCode_of_passes req res h, referenceContent]

theorem referenceContent_reqRepeated :
    referenceContent reqRepeated =
      header ++ block (ascii "C") (ascii "y") ++ block (ascii "C") (ascii "y") := by
  simp [referenceContent, reqRepeated, fileBlocks, locationBlock, messageOf, messageIndex,
    messageAt, messageBlock, parseIndex_y]

/-- Witness of C19: in `reqRepeated` the message `C` is named by two entries
and gets two blocks, the message `A` of the first file is named by none and
gets no block, the entry `[4,0,1]` contributes nothing, and the second file,
whose table is empty, contributes nothing. -/
theorem generateCode_reference_content_witness :
    (∀ protofile ∈ reqRepeated.protoFile, ∀ location ∈ protofile.location,
      locationPasses protofile location = true) ∧
    generateCode reqRepeated resOne =
      .returned none { file := resOne.file ++ [artifact (referenceContent reqRepeated)] } ∧
    referenceContent reqRepeated =
      header ++ block (ascii "C") (ascii "y") ++ block (ascii "C") (ascii "y") :=
  ⟨by decide, generateCode_reference_content reqRepeated resOne (by decide),
    referenceContent_reqRepeated⟩

end KeeperGenerator
